import Mathlib

/-!
Verification of the noxaudit audit engine against its natural-language
specification.  Each definition in this file is a shallow embedding of a
function of the Python source (file and line references are given on each
definition).  Machine-level details that the claims do not touch are modelled
explicitly where they matter:

* ISO-8601 date strings (`decision.date`) are modelled as `Option Int`: `none`
  stands for the empty string and `some n` for a well-formed date rendered as
  a day number.  Python compares these dates as strings; for well-formed
  ISO dates (fixed-width, zero-padded) string order coincides with day-number
  order, and the empty string sorts strictly below every date, which is the
  order implemented by `dateGt` below.  `filter_findings` in the source calls
  `date.fromisoformat` on any non-empty date, so stores with malformed dates
  raise in the source and are outside this model.
* The filesystem seen by the decision filter is a function
  `env : String → Option String` giving the current content digest of each
  relative path (`none` when the file is missing or unreadable), exactly the
  interface `_hash_file` provides at `decisions.py:186`.
-/

namespace Noxaudit

/-- Python truthiness of an `Optional[str]`: `None` and `""` are falsy
(`decisions.py` tests `if decision.date:` and `if decision.file_hash and
finding.file:`). -/
def pyTruthy : Option String → Bool
  | none => false
  | some s => !s.isEmpty

/-- Stable insertion of `a` into a sorted list: `a` goes in front of the
first element it is `le`-below-or-equal, so earlier elements stay in front of
later equal ones, as in Python's stable `sorted`. -/
def insertSorted (le : α → α → Bool) (a : α) : List α → List α
  | [] => [a]
  | b :: l => if le a b then a :: b :: l else b :: insertSorted le a l

/-- Python's `sorted` (stable, ascending) as a structurally recursive
insertion sort. -/
def pySorted (le : α → α → Bool) : List α → List α
  | [] => []
  | a :: l => insertSorted le a (pySorted le l)

/-- Lexicographic comparison of character lists by code point, the order
Python uses on strings. -/
def charListLe : List Char → List Char → Bool
  | [], _ => true
  | _ :: _, [] => false
  | a :: as, b :: bs =>
    a.toNat < b.toNat || (a.toNat = b.toNat && charListLe as bs)

/-- Python `<=` on strings: lexicographic by code point. -/
def pyStrLe (a b : String) : Bool := charListLe a.data b.data

/-- Python `str.lower` (ASCII input suffices for the model keys it is
applied to). -/
def pyLower (s : String) : String := ⟨s.data.map Char.toLower⟩

/-- Python `sep.join(l)`. -/
def pyJoin (sep : String) : List String → String
  | [] => ""
  | [a] => a
  | a :: rest => a ++ sep ++ pyJoin sep rest

/-- `DecisionType` from `models.py:16`. -/
inductive DecisionType where
  | accepted
  | dismissed
  | intentional
deriving DecidableEq, Repr

/-- `Decision` from `models.py:55`.  The Python field `by` is `by_` here
(`by` is a Lean keyword); `date` is modelled as described in the file header. -/
structure Decision where
  finding_id : String
  decision : DecisionType
  reason : String
  date : Option Int
  by_ : String
  file : Option String := none
  file_hash : Option String := none
  focus : Option String := none
  severity : Option String := none
  repo : Option String := none
deriving DecidableEq, Repr

/-- `Severity` from `models.py:10`. -/
inductive Severity where
  | high
  | medium
  | low
deriving DecidableEq, Repr

/-- `Finding` from `models.py:29`. -/
structure Finding where
  id : String
  severity : Severity
  file : String
  line : Option Int
  title : String
  description : String
  suggestion : Option String := none
  focus : Option String := none
deriving DecidableEq, Repr

/-- Python string `>` on two modelled dates (`decisions.py:63` compares
`d.date > decision_map[d.finding_id].date`): the empty string is below every
well-formed date, and well-formed dates compare by day number. -/
def dateGt : Option Int → Option Int → Bool
  | some a, some b => a > b
  | some _, none => true
  | none, _ => false

/-- The `decision_map` loop of `filter_findings` (`decisions.py:61-64`):
a Python dict modelled as a lookup function.  An incoming decision replaces
the stored one only when its `finding_id` is absent or its date is strictly
greater. -/
def decisionMap (decisions : List Decision) : String → Option Decision :=
  decisions.foldl
    (fun m d => fun fid =>
      if fid = d.finding_id then
        match m fid with
        | none => some d
        | some old => if dateGt d.date old.date then some d else some old
      else m fid)
    (fun _ => none)

/-- Expiry test of `filter_findings` (`decisions.py:77-79`): only a non-empty
date is checked, and a decision is expired when `today - decision_date`
strictly exceeds `expiry_days` days. -/
def decisionExpired (today : Int) (expiryDays : Int) (d : Decision) : Bool :=
  match d.date with
  | none => false
  | some dd => today - dd > expiryDays

/-- Stale-hash test of `filter_findings` (`decisions.py:84-87`): checked only
when the decision carries a truthy `file_hash` and the finding a truthy
`file`; the file's current digest (possibly `none` for a missing file) is
compared against the recorded hash. -/
def decisionHashStale (env : String → Option String) (d : Decision) (f : Finding) : Bool :=
  if pyTruthy d.file_hash && !f.file.isEmpty then
    env f.file ≠ d.file_hash
  else
    false

/-- Per-finding branch of the `filter_findings` loop (`decisions.py:70-96`):
`true` when the finding goes to `new_findings`. -/
def findingResurfaces (dmap : String → Option Decision) (env : String → Option String)
    (today expiryDays : Int) (f : Finding) : Bool :=
  match dmap f.id with
  | none => true
  | some d => decisionExpired today expiryDays d || decisionHashStale env d f

/-- `filter_findings` (`decisions.py:49-98`).  Returns
`(new_findings, resolved_count)`.  All three decision kinds increment
`resolved_count` in the source (`decisions.py:93-96`), which the model folds
into a single increment. -/
def filter_findings (findings : List Finding) (decisions : List Decision)
    (env : String → Option String) (today : Int) (expiryDays : Int) :
    List Finding × Nat :=
  let dmap := decisionMap decisions
  findings.foldr
    (fun f (acc : List Finding × Nat) =>
      if findingResurfaces dmap env today expiryDays f then
        (f :: acc.1, acc.2)
      else
        (acc.1, acc.2 + 1))
    ([], 0)

/-- Spec-side notion used by claim C2: `d` is the effective decision for
finding id `fid` in store `ds` — it occurs in the store, carries that id, no
stored decision with that id has a strictly greater date, and no earlier
stored record has that id and the same date (the tie-break the source's
first-wins dict update implements). -/
def IsEffectiveDecision (ds : List Decision) (fid : String) (d : Decision) : Prop :=
  ∃ pre post, ds = pre ++ d :: post ∧ d.finding_id = fid ∧
    (∀ d' ∈ ds, d'.finding_id = fid → dateGt d'.date d.date = false) ∧
    (∀ d' ∈ pre, d'.finding_id = fid → d'.date ≠ d.date)

/-- Structurally recursive form of the `decision_map` lookup: among the
store's decisions carrying `fid`, the first one attaining the greatest
date. -/
def pickBest : List Decision → String → Option Decision
  | [], _ => none
  | d :: ds, fid =>
    if d.finding_id = fid then
      match pickBest ds fid with
      | none => some d
      | some b => if dateGt b.date d.date then some b else some d
    else pickBest ds fid

/-- Merge of an already-stored dict entry with the winner of the remaining
fold: the later winner replaces the stored entry only on a strictly greater
date. -/
def decisionCombine : Option Decision → Option Decision → Option Decision
  | none, r => r
  | some c, none => some c
  | some c, some b => if dateGt b.date c.date then some b else some c

/-- The removal condition of the `remove_baseline_decisions` loop
(`decisions.py:169-172`): `baseline`-tagged and, when an id filter is given,
carrying one of the listed ids. -/
def removeCond (finding_ids : Option (List String)) (d : Decision) : Bool :=
  (d.reason = "baseline") &&
    (match finding_ids with
     | none => true
     | some ids => d.finding_id ∈ ids)

/-- `remove_baseline_decisions` (`decisions.py:153-178`) applied to a loaded
store: returns the kept records (written back verbatim) and the removed
count.  `finding_ids = none` models the Python default `None` (no id
filter). -/
def remove_baseline_decisions (store : List Decision)
    (finding_ids : Option (List String)) : List Decision × Nat :=
  store.foldr
    (fun d (acc : List Decision × Nat) =>
      if removeCond finding_ids d then (acc.1, acc.2 + 1)
      else (d :: acc.1, acc.2))
    ([], 0)

/-- Filter options of the `baseline --undo` CLI path (`cli.py:441-459`).
`none` models an absent option; `focus_names`/`sev_names` hold the
comma-split, stripped lists the CLI computes at `cli.py:447-450`. -/
structure UndoFilter where
  repo : Option String := none
  focus_names : Option (List String) := none
  sev_names : Option (List String) := none
deriving Repr

/-- Per-record filter of the undo loop (`cli.py:451-458`): a baseline record
contributes its `finding_id` when every given filter field matches.  The
source's `if focus_names and d.focus not in focus_names` skips the test when
the parsed list is empty (Python truthiness), as does the model. -/
def undoRecordMatches (flt : UndoFilter) (d : Decision) : Bool :=
  (match flt.repo with
   | none => true
   | some r => if r.isEmpty then true else d.repo = some r) &&
  (match flt.focus_names with
   | none => true
   | some [] => true
   | some names => decide (∃ f, d.focus = some f ∧ f ∈ names)) &&
  (match flt.sev_names with
   | none => true
   | some [] => true
   | some names => decide (∃ s, d.severity = some s ∧ s ∈ names))

/-- The `baseline --undo` flow (`cli.py:441-461`) over a loaded store: with
any filter given, collect the `finding_id`s of the baseline records matching
all filters and remove baselines restricted to those ids; with no filter,
remove every baseline record. -/
def baselineUndo (store : List Decision) (flt : UndoFilter) : List Decision × Nat :=
  if flt.repo.isSome ∨ flt.focus_names.isSome ∨ flt.sev_names.isSome then
    let all_baselines := store.filter (fun d => d.reason = "baseline")
    let finding_ids :=
      (all_baselines.filter (undoRecordMatches flt)).map (·.finding_id)
    remove_baseline_decisions store (some finding_ids)
  else
    remove_baseline_decisions store none

/-- The record-removal condition claim C6 must be amended to (stated from
the observed behaviour): a record is removed iff it is `baseline`-tagged and,
when any filter is given, it *shares its finding_id* with some baseline
record matching all given filters — matching by id, not by the record's own
filter fields. -/
def undoRemovedPred (store : List Decision) (flt : UndoFilter) (d : Decision) :
    Bool :=
  (d.reason = "baseline") &&
    (if flt.repo.isSome ∨ flt.focus_names.isSome ∨ flt.sev_names.isSome then
      decide (∃ d' ∈ store, d'.reason = "baseline" ∧
        undoRecordMatches flt d' = true ∧ d'.finding_id = d.finding_id)
     else true)

/-! ## Pricing model (`pricing.py`)

Python floats are modelled as exact rationals; every constant in
`MODEL_PRICING` is a short decimal, exactly representable, and `estimate_cost`
uses only `+`, `-`, `*`, `/` on them, so the rational model computes the same
real values the float code approximates. -/

/-- `ModelPricing` from `pricing.py:10-21`. -/
structure ModelPricing where
  input_per_million : ℚ
  output_per_million : ℚ
  tier_threshold : Option Int
  input_per_million_high : Option ℚ
  output_per_million_high : Option ℚ
  batch_discount : ℚ := 0
  context_window : Int := 200000
deriving DecidableEq, Repr

/-- Python `x or 0.0` on an `Optional[float]` (`pricing.py:120-121`): `None`
gives `0.0`, and a stored `0.0` is falsy but its replacement is the same
value, so the identity on `some` is faithful. -/
def pyOrZero : Option ℚ → ℚ
  | none => 0
  | some q => q

/-- Truthiness of `pricing.tier_threshold` in `if pricing.tier_threshold and
input_tokens > pricing.tier_threshold:` (`pricing.py:116`). -/
def tierTruthy : Option Int → Bool
  | none => false
  | some t => t ≠ 0

/-- `MODEL_PRICING` from `pricing.py:23-60`. -/
def MODEL_PRICING : List (String × ModelPricing) :=
  [ ("claude-opus-4-6",
      { input_per_million := 5, output_per_million := 25,
        tier_threshold := some 200000,
        input_per_million_high := some 10, output_per_million_high := some (75/2),
        batch_discount := 1/2, context_window := 200000 }),
    ("claude-sonnet-4-5",
      { input_per_million := 3, output_per_million := 15,
        tier_threshold := some 200000,
        input_per_million_high := some 6, output_per_million_high := some (45/2),
        batch_discount := 1/2, context_window := 200000 }),
    ("gemini-2.5-flash",
      { input_per_million := 3/10, output_per_million := 5/2,
        tier_threshold := none,
        input_per_million_high := none, output_per_million_high := none,
        batch_discount := 0, context_window := 1000000 }),
    ("gemini-2.0-flash",
      { input_per_million := 1/10, output_per_million := 2/5,
        tier_threshold := none,
        input_per_million_high := none, output_per_million_high := none,
        batch_discount := 0, context_window := 1000000 }) ]

/-- The tier test of `estimate_cost` (`pricing.py:116`): Python
`if pricing.tier_threshold and input_tokens > pricing.tier_threshold`. -/
def tieredActive (pricing : ModelPricing) (input_tokens : Int) : Bool :=
  tierTruthy pricing.tier_threshold &&
    input_tokens > pricing.tier_threshold.getD 0

/-- `input_cost + output_cost` of `estimate_cost` before the batch discount
(`pricing.py:116-126`). -/
def rawCost (input_tokens output_tokens : Int) (pricing : ModelPricing) : ℚ :=
  (if tieredActive pricing input_tokens then
    ((pricing.tier_threshold.getD 0 : Int) : ℚ) / 1000000 *
        pricing.input_per_million +
      (((input_tokens : ℚ) - ((pricing.tier_threshold.getD 0 : Int) : ℚ)) /
          1000000) * pyOrZero pricing.input_per_million_high
   else ((input_tokens : ℚ) / 1000000) * pricing.input_per_million) +
  (if tieredActive pricing input_tokens then
    ((output_tokens : ℚ) / 1000000) * pyOrZero pricing.output_per_million_high
   else ((output_tokens : ℚ) / 1000000) * pricing.output_per_million)

/-- The batch-discount multiplier of `estimate_cost` (`pricing.py:128-129`):
`total *= 1 - discount` exactly when `use_batch` and a positive discount. -/
def discFactor (pricing : ModelPricing) (use_batch : Bool) : ℚ :=
  if use_batch && pricing.batch_discount > 0 then 1 - pricing.batch_discount
  else 1

/-- `estimate_cost` from `pricing.py:101-131`: zero when both token counts
are zero, otherwise the raw tier-split cost times the discount factor. -/
def estimate_cost (input_tokens output_tokens : Int) (pricing : ModelPricing)
    (use_batch : Bool) : ℚ :=
  if input_tokens = 0 ∧ output_tokens = 0 then 0
  else rawCost input_tokens output_tokens pricing *
    discFactor pricing use_batch

/-- `needle` occurs at the head of `hay` (helper for Python's substring
`in`). -/
def headMatch : List Char → List Char → Bool
  | [], _ => true
  | _ :: _, [] => false
  | a :: n, b :: h => a = b && headMatch n h

/-- Python substring membership `needle in hay` on strings. -/
def strContains (needle hay : List Char) : Bool :=
  match hay with
  | [] => headMatch needle []
  | _ :: rest => headMatch needle hay || strContains needle rest

/-- Python `needle in hay` lifted to `String`. -/
def pyInStr (needle hay : String) : Bool :=
  strContains needle.data hay.data

/-- `resolve_model_key` from `pricing.py:82-98`.  Substring membership tests
(`"opus" in model_lower`) are Python `in` on strings. -/
def resolve_model_key (provider model : String) : String :=
  if (MODEL_PRICING.lookup model).isSome then model
  else
    if provider = "anthropic" then
      if pyInStr "opus" (pyLower model) then "claude-opus-4-6"
      else "claude-sonnet-4-5"
    else if provider = "gemini" then
      if pyInStr "2.5" model || pyInStr "2-5" model then "gemini-2.5-flash"
      else "gemini-2.0-flash"
    else "gemini-2.0-flash"

/-! ## Cost ledger (`cost_ledger.py`)

`CostLedger.append_entry` (`cost_ledger.py:17-71`) computes a cost and appends
one JSON record.  Its call into `estimate_cost` is written
`estimate_cost(input_tokens, output_tokens, pricing, use_batch=use_batch,
cache_read_tokens=..., cache_write_tokens=...)` (`cost_ledger.py:46-53`), but
the definition of `estimate_cost` at `pricing.py:101-106` accepts only the
parameters `input_tokens, output_tokens, pricing, use_batch`.  Python raises
`TypeError` on a keyword argument that matches no parameter, before the callee
body runs; the embedding reproduces exactly that call-binding step. -/

/-- Parameter names of `estimate_cost` as defined (`pricing.py:101-106`). -/
def estimateCostParams : List String :=
  ["input_tokens", "output_tokens", "pricing", "use_batch"]

/-- Keyword arguments used at the `append_entry` call site
(`cost_ledger.py:46-53`). -/
def appendEntryCallKwargs : List String :=
  ["use_batch", "cache_read_tokens", "cache_write_tokens"]

/-- One ledger record as built at `cost_ledger.py:55-67` (timestamp handling
and float rounding of the cost are kept abstract in `cost_estimate`). -/
structure LedgerEntry where
  timestamp : String
  repo : String
  focus : String
  provider : String
  model : String
  input_tokens : Int
  output_tokens : Int
  cache_read_tokens : Int
  cache_write_tokens : Int
  file_count : Int
  cost_estimate : ℚ
deriving DecidableEq, Repr

/-- `CostLedger.append_entry` (`cost_ledger.py:17-71`) modelled as the record
it would append, or the exception the call raises.  When a pricing entry is
found, the source invokes `estimate_cost` with keyword arguments that are not
parameters of `estimate_cost`, which raises `TypeError` at the call site. -/
def append_entry (repo focus provider model : String)
    (input_tokens output_tokens cache_read_tokens cache_write_tokens
      file_count : Int) (timestamp : String) :
    Except String LedgerEntry :=
  let model_key := resolve_model_key provider model
  match MODEL_PRICING.lookup model_key with
  | none =>
      .ok { timestamp, repo, focus, provider, model, input_tokens,
            output_tokens, cache_read_tokens, cache_write_tokens, file_count,
            cost_estimate := 0 }
  | some pricing =>
      if appendEntryCallKwargs.all (fun k => k ∈ estimateCostParams) then
        let use_batch := pyLower provider = "anthropic"
        .ok { timestamp, repo, focus, provider, model, input_tokens,
              output_tokens, cache_read_tokens, cache_write_tokens, file_count,
              cost_estimate :=
                estimate_cost input_tokens output_tokens pricing use_batch }
      else
        .error "TypeError: estimate_cost() got an unexpected keyword argument"

/-! ## Pre-pass enrichment (`prepass.py`, `focus/base.py`)

File contents are strings; `str.splitlines` is modelled for `\n`-separated
text (the only separator the enrichment code itself produces, and the one in
every concrete input of the theorems below).  Python's `str.strip` and the
regex class `\s` are modelled over the ASCII whitespace characters. -/

/-- `FileContent` from `models.py:23`. -/
structure FileContent where
  path : String
  content : String
deriving DecidableEq, Repr

/-- `ContentTier` from `models.py:88`. -/
inductive ContentTier where
  | full
  | snippet
  | map
  | skip
deriving DecidableEq, Repr

/-- `FileClassification` from `models.py:98`. -/
structure FileClassification where
  path : String
  tier : ContentTier := .full
  reason : Option String := none
deriving DecidableEq, Repr

/-- ASCII whitespace as matched by Python's `str.strip` / regex `\s`. -/
def pyIsSpace (c : Char) : Bool :=
  c = ' ' ∨ c = '\t' ∨ c = '\n' ∨ c = '\r' ∨ c = '\x0b' ∨ c = '\x0c'

/-- Helper for `pySplitlines`: split at `'\n'`, a trailing newline producing
no empty final piece. -/
def linesOf : List Char → List Char → List String
  | acc, [] => [⟨acc.reverse⟩]
  | acc, c :: rest =>
    if c = '\n' then
      match rest with
      | [] => [⟨acc.reverse⟩]
      | _ :: _ => ⟨acc.reverse⟩ :: linesOf [] rest
    else linesOf (c :: acc) rest

/-- Python `str.splitlines` for `\n`-separated text: no trailing empty piece
for a trailing newline, and `[]` for the empty string. -/
def pySplitlines (s : String) : List String :=
  match s.data with
  | [] => []
  | l => linesOf [] l

/-- Python `str.strip()` over ASCII whitespace. -/
def pyStrip (s : String) : String :=
  ⟨(s.data.dropWhile pyIsSpace).reverse.dropWhile pyIsSpace |>.reverse⟩

/-- Match `pat` at the head of `l`, returning the rest. -/
def stripHead : List Char → List Char → Option (List Char)
  | [], l => some l
  | _ :: _, [] => none
  | a :: p, b :: l => if a = b then stripHead p l else none

/-- Consume one-or-more whitespace characters (regex `\s+`; greedy, and no
continuation of the patterns below starts with whitespace, so maximal
consumption is faithful). -/
def wsOnePlus (l : List Char) : Option (List Char) :=
  match l with
  | c :: rest => if pyIsSpace c then some (rest.dropWhile pyIsSpace) else none
  | [] => none

/-- `(class|function|const|let|var)\s` of `_DEF_RE` (`focus/base.py:98-100`). -/
def kwThenWs (l : List Char) : Bool :=
  ["class", "function", "const", "let", "var"].any fun kw =>
    match stripHead kw.data l with
    | some (c :: _) => pyIsSpace c
    | _ => false

/-- The `export\s+(default\s+)?(class|function|const|let|var)\s` alternative
of `_DEF_RE`, with the optional group's backtracking made explicit. -/
def exportDefMatch (l : List Char) : Bool :=
  match stripHead "export".data l with
  | none => false
  | some rest =>
    match wsOnePlus rest with
    | none => false
    | some rest2 =>
      match stripHead "default".data rest2 with
      | some r3 =>
        match wsOnePlus r3 with
        | some r4 => kwThenWs r4 || kwThenWs rest2
        | none => kwThenWs rest2
      | none => kwThenWs rest2

/-- `_DEF_RE.match(stripped)` (`focus/base.py:98-100`): the stripped line
starts a top-level definition. -/
def defLineMatch (stripped : String) : Bool :=
  let l := stripped.data
  (stripHead "class ".data l).isSome ||
  (stripHead "def ".data l).isSome ||
  (stripHead "async def ".data l).isSome ||
  (stripHead "function ".data l).isSome ||
  exportDefMatch l

/-- A single quote character, and the `'''` opener built from it. -/
def squoteChar : Char := Char.ofNat 39

/-- The triple-single-quote docstring opener matched by `_COMMENT_RE`. -/
def tripleSquote : String := String.mk [squoteChar, squoteChar, squoteChar]

/-- `_COMMENT_RE.match(line)` (`focus/base.py:101`): optional leading
whitespace then a comment/docstring opener. -/
def commentLineMatch (line : String) : Bool :=
  let l := line.data.dropWhile pyIsSpace
  (stripHead "#".data l).isSome ||
  (stripHead "//".data l).isSome ||
  (stripHead "/*".data l).isSome ||
  (stripHead "\"\"\"".data l).isSome ||
  (stripHead tripleSquote.data l).isSome

/-- `extract_file_snippets` (`focus/base.py:68-82`).  For `half = 0` Python's
`lines[-0:]` is the whole list; the default `max_lines = 50` used by every
caller gives `half = 25`. -/
def extract_file_snippets (file : FileContent) (max_lines : Nat := 50) :
    FileContent :=
  let lines := pySplitlines file.content
  if lines.length ≤ max_lines then file
  else
    let half := max_lines / 2
    let omitted := lines.length - max_lines
    let tailPart := if half = 0 then lines else lines.drop (lines.length - half)
    let snippet_lines :=
      lines.take half ++
        ["# ... [" ++ toString omitted ++ " lines omitted] ..."] ++ tailPart
    { path := file.path, content := pyJoin "\n" snippet_lines }

/-- The header line prepended by `extract_file_map` (`focus/base.py:114`). -/
def fileMapHeader : String := "# [file map — definitions only]\n"

/-- `extract_file_map` (`focus/base.py:85-115`). -/
def extract_file_map (file : FileContent) : FileContent :=
  let lines := pySplitlines file.content
  let map_lines := lines.filter fun line =>
    defLineMatch (pyStrip line) || commentLineMatch line
  let map_lines := if map_lines.isEmpty then lines.take 20 else map_lines
  { path := file.path,
    content := fileMapHeader ++ pyJoin "\n" map_lines }

/-- The `tier_map` dict comprehension of `enrich_files` (`prepass.py:65`):
later classifications overwrite earlier ones, and an unmentioned path gets
`ContentTier.SKIP` (`prepass.py:69`). -/
def tierOf (classified : List FileClassification) (p : String) : ContentTier :=
  match classified.reverse.find? (fun fc => fc.path = p) with
  | some fc => fc.tier
  | none => .skip

/-- `enrich_files` (`prepass.py:51-77`). -/
def enrich_files (files : List FileContent)
    (classified : List FileClassification) : List FileContent :=
  files.foldr
    (fun f acc =>
      match tierOf classified f.path with
      | .full => f :: acc
      | .snippet => extract_file_snippets f :: acc
      | .map => extract_file_map f :: acc
      | .skip => acc)
    []

/-! ## Pre-pass trigger and the submit flow (`runner.py`) -/

/-- `PrepassConfig` from `config.py:70-75`. -/
structure PrepassConfig where
  enabled : Bool := false
  threshold_tokens : Int := 600000
  auto_disable : Bool := false
deriving DecidableEq, Repr

/-- `estimate_tokens` (`runner.py:65-68`): total characters over four,
floor division. -/
def estimate_tokens (files : List FileContent) : Int :=
  ((files.map (fun f => (f.content.length : Int))).sum) / 4

/-- `_maybe_prepass` (`runner.py:71-121`) restricted to what it computes and
returns: the trigger flag and the file list.  The returned file list is the
input list in every branch of the source (`runner.py:90,95,119,121`); only
the explanatory display string (built with float formatting at
`runner.py:104-118`) is elided, as nothing downstream branches on it. -/
def maybe_prepass (files : List FileContent) (prepass : PrepassConfig)
    (model : String) : Bool × List FileContent :=
  if prepass.enabled && estimate_tokens files > prepass.threshold_tokens then
    (true, files)
  else if prepass.auto_disable then
    (false, files)
  else
    match MODEL_PRICING.lookup model with
    | some pricing =>
      match pricing.tier_threshold with
      | some t =>
        if estimate_tokens files > t then (true, files) else (false, files)
      | none => (false, files)
    | none => (false, files)

/-- The file list `_submit_repo` (`runner.py:262-316`) actually passes to
`provider.submit_batch` at `runner.py:302`: the second component of
`_maybe_prepass`, with no call to `run_prepass` or `enrich_files` anywhere in
the submit flow. -/
def submit_repo_submitted_files (gathered : List FileContent)
    (prepass : PrepassConfig) (model : String) : List FileContent :=
  (maybe_prepass gathered prepass model).2

/-! ## SHA-256 (`hashlib.sha256` as used by the providers)

A complete executable SHA-256 over byte lists (bytes and 32-bit words are
`Nat` with explicit `% 2^32`), validated against the NIST vectors for the
empty string and `"abc"` in the theorems section. -/

/-- Right-rotation of a 32-bit word. -/
def rotr (k x : Nat) : Nat := (x / 2^k) + (x % 2^k) * 2^(32-k)

/-- Logical right shift of a 32-bit word. -/
def shr (k x : Nat) : Nat := x / 2^k

/-- Bitwise complement of a 32-bit word. -/
def notW (x : Nat) : Nat := Nat.xor x (2^32 - 1)

/-- SHA-256 big sigma 0. -/
def bsig0 (x : Nat) : Nat := Nat.xor (Nat.xor (rotr 2 x) (rotr 13 x)) (rotr 22 x)

/-- SHA-256 big sigma 1. -/
def bsig1 (x : Nat) : Nat := Nat.xor (Nat.xor (rotr 6 x) (rotr 11 x)) (rotr 25 x)

/-- SHA-256 small sigma 0. -/
def ssig0 (x : Nat) : Nat := Nat.xor (Nat.xor (rotr 7 x) (rotr 18 x)) (shr 3 x)

/-- SHA-256 small sigma 1. -/
def ssig1 (x : Nat) : Nat := Nat.xor (Nat.xor (rotr 17 x) (rotr 19 x)) (shr 10 x)

/-- SHA-256 choice function. -/
def chF (e f g : Nat) : Nat := Nat.xor (Nat.land e f) (Nat.land (notW e) g)

/-- SHA-256 majority function. -/
def majF (a b c : Nat) : Nat :=
  Nat.xor (Nat.xor (Nat.land a b) (Nat.land a c)) (Nat.land b c)

/-- SHA-256 round constants. -/
def K256 : List Nat :=
  [1116352408, 1899447441, 3049323471, 3921009573, 961987163,
   1508970993, 2453635748, 2870763221, 3624381080, 310598401,
   607225278, 1426881987, 1925078388, 2162078206, 2614888103,
   3248222580, 3835390401, 4022224774, 264347078, 604807628,
   770255983, 1249150122, 1555081692, 1996064986, 2554220882,
   2821834349, 2952996808, 3210313671, 3336571891, 3584528711,
   113926993, 338241895, 666307205, 773529912, 1294757372,
   1396182291, 1695183700, 1986661051, 2177026350, 2456956037,
   2730485921, 2820302411, 3259730800, 3345764771, 3516065817,
   3600352804, 4094571909, 275423344, 430227734, 506948616,
   659060556, 883997877, 958139571, 1322822218, 1537002063,
   1747873779, 1955562222, 2024104815, 2227730452, 2361852424,
   2428436474, 2756734187, 3204031479, 3329325298]

/-- SHA-256 initial hash words. -/
def H256 : List Nat :=
  [1779033703, 3144134277, 1013904242, 2773480762,
   1359893119, 2600822924, 528734635, 1541459225]

/-- Big-endian 8-byte encoding of a length. -/
def be64 (n : Nat) : List Nat :=
  (List.range 8).map (fun i => n / 2^(8*(7-i)) % 256)

/-- SHA-256 message padding. -/
def sha256pad (msg : List Nat) : List Nat :=
  let L := msg.length
  msg ++ [0x80] ++ List.replicate ((119 - L % 64) % 64) 0 ++ be64 (8 * L)

/-- Split a padded message into 64-byte blocks. -/
def toBlocks (l : List Nat) : List (List Nat) :=
  (List.range (l.length / 64)).map (fun i => (l.drop (64*i)).take 64)

/-- The sixteen 32-bit words of one block. -/
def blockWords (b : List Nat) : List Nat :=
  (List.range 16).map (fun i =>
    b.getD (4*i) 0 * 2^24 + b.getD (4*i+1) 0 * 2^16 +
      b.getD (4*i+2) 0 * 2^8 + b.getD (4*i+3) 0)

/-- Message-schedule extension to 64 words. -/
def scheduleW (b : List Nat) : List Nat :=
  (List.range 48).foldl
    (fun w _ =>
      let n := w.length
      w ++ [(ssig1 (w.getD (n-2) 0) + w.getD (n-7) 0 +
             ssig0 (w.getD (n-15) 0) + w.getD (n-16) 0) % 2^32])
    (blockWords b)

/-- SHA-256 compression of one block into the running hash. -/
def compressBlock (h : List Nat) (b : List Nat) : List Nat :=
  let w := scheduleW b
  let final := (List.range 64).foldl
    (fun (s : List Nat) i =>
      let a := s.getD 0 0
      let b' := s.getD 1 0
      let c := s.getD 2 0
      let d := s.getD 3 0
      let e := s.getD 4 0
      let f := s.getD 5 0
      let g := s.getD 6 0
      let hh := s.getD 7 0
      let t1 := (hh + bsig1 e + chF e f g + K256.getD i 0 + w.getD i 0) % 2^32
      let t2 := (bsig0 a + majF a b' c) % 2^32
      [(t1 + t2) % 2^32, a, b', c, (d + t1) % 2^32, e, f, g])
    h
  List.zipWith (fun x y => (x + y) % 2^32) h final

/-- SHA-256 of a byte list, as eight 32-bit words. -/
def sha256words (msg : List Nat) : List Nat :=
  (toBlocks (sha256pad msg)).foldl compressBlock H256

/-- Lower-case hex digit. -/
def hexChar (n : Nat) : Char := "0123456789abcdef".data.getD n '0'

/-- Lower-case hex rendering of one 32-bit word. -/
def wordHex (w : Nat) : List Char :=
  (List.range 8).map (fun i => hexChar (w / 16^(7-i) % 16))

/-- UTF-8 encoding of one code point (as `str.encode()` does). -/
def utf8Bytes (c : Nat) : List Nat :=
  if c < 0x80 then [c]
  else if c < 0x800 then [0xC0 + c / 64, 0x80 + c % 64]
  else if c < 0x10000 then [0xE0 + c / 4096, 0x80 + (c / 64) % 64, 0x80 + c % 64]
  else [0xF0 + c / 262144, 0x80 + (c / 4096) % 64, 0x80 + (c / 64) % 64,
        0x80 + c % 64]

/-- `str.encode()`: UTF-8 bytes of a string. -/
def strBytes (s : String) : List Nat :=
  (s.data.map (fun c => utf8Bytes c.toNat)).flatten

/-- `hashlib.sha256(key.encode()).hexdigest()` as a character list. -/
def sha256hexChars (s : String) : List Char :=
  ((sha256words (strBytes s)).map wordHex).flatten

/-- `hashlib.sha256(key.encode()).hexdigest()`. -/
def sha256hex (s : String) : String := String.mk (sha256hexChars s)

/-! ## Provider response parsing (`providers/anthropic.py`, `providers/gemini.py`,
`providers/openai.py`)

A raw finding is one element of the model's `findings` JSON array.  The
`line` value distinguishes a key that is absent from one that is present with
JSON `null`, because `raw.get('line', '')` renders the former as `""` and the
latter as `"None"` inside the id key, while `f.get("line")` maps both to
`None` in the parsed `Finding`. -/

/-- The `line` member of a raw finding object. -/
inductive PyLine where
  | absent
  | null
  | int (n : Int)
deriving DecidableEq, Repr

/-- The f-string rendering of `raw.get('line', '')`
(`providers/anthropic.py:192`). -/
def renderLine : PyLine → String
  | .absent => ""
  | .null => "None"
  | .int n => toString n

/-- One element of the model's `findings` array after JSON decoding.  `focus`
and `suggestion` are `none` for an absent or `null` member (`dict.get`
conflates the two, and both are falsy). -/
structure RawFinding where
  severity : String
  file : String
  title : String
  description : String
  line : PyLine := .absent
  suggestion : Option String := none
  focus : Option String := none
deriving DecidableEq, Repr

/-- The id key built by `AnthropicProvider._make_finding_id`
(`providers/anthropic.py:191-196`): `file:title:line`, prefixed by
`focus:` when the raw focus is truthy. -/
def anthropic_finding_key (raw : RawFinding) : String :=
  let key := raw.file ++ ":" ++ raw.title ++ ":" ++ renderLine raw.line
  if pyTruthy raw.focus then raw.focus.getD "" ++ ":" ++ key else key

/-- `AnthropicProvider._make_finding_id` (`providers/anthropic.py:191-196`). -/
def anthropic_make_finding_id (raw : RawFinding) : String :=
  String.mk ((sha256hexChars (anthropic_finding_key raw)).take 12)

/-- The id key built by `GeminiProvider._make_finding_id`
(`providers/gemini.py:131-136`); textually the same computation as the
Anthropic one. -/
def gemini_finding_key (raw : RawFinding) : String :=
  let key := raw.file ++ ":" ++ raw.title ++ ":" ++ renderLine raw.line
  if pyTruthy raw.focus then raw.focus.getD "" ++ ":" ++ key else key

/-- `GeminiProvider._make_finding_id` (`providers/gemini.py:131-136`). -/
def gemini_make_finding_id (raw : RawFinding) : String :=
  String.mk ((sha256hexChars (gemini_finding_key raw)).take 12)

/-- The id key built by `OpenAIProvider._make_finding_id`
(`providers/openai.py:248-252`); textually the same computation again. -/
def openai_finding_key (raw : RawFinding) : String :=
  let key := raw.file ++ ":" ++ raw.title ++ ":" ++ renderLine raw.line
  if pyTruthy raw.focus then raw.focus.getD "" ++ ":" ++ key else key

/-- `OpenAIProvider._make_finding_id` (`providers/openai.py:248-252`). -/
def openai_make_finding_id (raw : RawFinding) : String :=
  String.mk ((sha256hexChars (openai_finding_key raw)).take 12)

/-- `Severity(f["severity"])` (`providers/anthropic.py:179`): `none` models
the `ValueError` an unknown severity raises. -/
def parseSeverity : String → Option Severity
  | "high" => some .high
  | "medium" => some .medium
  | "low" => some .low
  | _ => none

/-- One iteration of the `_parse_response` loop
(`providers/anthropic.py:175-187`, identical in `gemini.py:115-127`): the id
is computed from the raw object before the focus backfill
`f.get("focus") or default_focus` is applied to the parsed record. -/
def parse_finding (raw : RawFinding) (default_focus : Option String) :
    Option Finding :=
  match parseSeverity raw.severity with
  | none => none
  | some sev =>
    some { id := anthropic_make_finding_id raw,
           severity := sev,
           file := raw.file,
           line := match raw.line with
                   | .int n => some n
                   | _ => none,
           title := raw.title,
           description := raw.description,
           suggestion := raw.suggestion,
           focus := if pyTruthy raw.focus then raw.focus else default_focus }

/-! ## Retrieve flow (`runner.py:167-259`)

`retrieve_audit` is modelled as a pure transition on the two persisted
documents it touches — the pending-batch file and the last-retrieved marker —
against a fixed remote-status oracle, together with an explicit trace of the
externally visible actions it performs.  The per-repo processing of a
terminal batch is fallible: when the recorded `file_count` is positive,
`_retrieve_repo` enters the ledger block (`runner.py:339-352`) and raises
before reaching the decision filter — `provider.get_last_usage()` is an
`AttributeError` for `AnthropicProvider` and `GeminiProvider`, which do not
define the method, and for `OpenAIProvider` the subsequent
`CostLedger.append_entry` call raises the `TypeError` established under C7.
Nothing in the retrieve flow catches an exception, so it escapes
`retrieve_audit`; an escaping exception is modelled as an `Except.error`
result, with the persisted state unchanged and the trace holding the actions
performed before the raise.  The remaining per-repo processing (decision
filtering, latest-findings snapshot, report writing, notifications) is
represented by action labels carrying the repo. -/

/-- One element of `pending["batches"]` (`runner.py:311-316`). -/
structure BatchInfo where
  repo : String
  batch_id : String
  provider : String
  file_count : Int
deriving DecidableEq, Repr

/-- The pending-batch document (`runner.py:144-149`). -/
structure PendingBatch where
  submitted_at : String
  focus : String
  focus_names : List String
  batches : List BatchInfo
deriving DecidableEq, Repr

/-- Remote status of one batch as `provider.retrieve_batch` reports it:
terminal (`"ended"`) or still processing with a request count
(`runner.py:330-332`). -/
inductive RemoteStatus where
  | ended
  | processing (count : Nat)
deriving DecidableEq, Repr

/-- The externally visible actions of the retrieve flow. -/
inductive RetrieveAction where
  | poll (batch_id : String)
  | filterDecisions (repo : String)
  | saveLatest (repo : String)
  | writeReport (repo : String)
  | markRetrieved (batch_ids : List String)
  | deletePending
deriving DecidableEq, Repr

/-- The two persisted documents `retrieve_audit` reads and writes:
`.noxaudit/pending-batch.json` and `.noxaudit/last-retrieved.json`
(`runner.py:37-38`).  The marker holds its recorded `batch_ids`
(`runner.py:250-254`); `retrieved_at` is elided as nothing reads it. -/
structure RunnerState where
  pendingFile : Option PendingBatch
  lastRetrieved : Option (List String)
deriving DecidableEq, Repr

/-- `_already_retrieved` (`runner.py:232-243`): compare the sorted pending
batch-id list against the sorted recorded list, requiring a non-empty set. -/
def already_retrieved (marker : Option (List String)) (pending : PendingBatch) :
    Bool :=
  match marker with
  | none => false
  | some recorded =>
    let pending_ids := pySorted pyStrLe (pending.batches.map (·.batch_id))
    let retrieved_ids := pySorted pyStrLe recorded
    pending_ids = retrieved_ids && pending_ids.length > 0

/-- `_retrieve_repo` (`runner.py:318-403`): poll once; on a non-terminal
status return nothing further; on a terminal status with a positive recorded
`file_count` raise inside the ledger block before any further processing —
`get_last_usage` is missing on the Anthropic and Gemini providers
(`AttributeError`), and for OpenAI `append_entry` raises the C7 `TypeError`;
the `provider` field of a submit-produced batch is one of the three registry
keys (`runner.py:27-31,313`).  On a terminal status with `file_count ≤ 0`
(reachable only through an old-format pending file, since
`batch_info.get("file_count", 0)` defaults to `0` and `_submit_repo` always
records `len(files) ≥ 1`), filter through decision memory, save the
latest-findings snapshot, write the report, and return a result (labelled by
the repo). -/
def retrieve_repo (remote : String → RemoteStatus) (b : BatchInfo) :
    Except String (Option String) × List RetrieveAction :=
  match remote b.batch_id with
  | .processing _ => (Except.ok none, [.poll b.batch_id])
  | .ended =>
    if b.file_count > 0 then
      (Except.error
        (if b.provider = "openai" then
          "TypeError: estimate_cost() got an unexpected keyword argument"
        else
          "AttributeError: provider object has no attribute get_last_usage"),
       [.poll b.batch_id])
    else
      (Except.ok (some b.repo),
       [.poll b.batch_id, .filterDecisions b.repo, .saveLatest b.repo,
        .writeReport b.repo])

/-- The `for batch_info in pending["batches"]` loop of `retrieve_audit`
(`runner.py:189-192`): process the batches in order, collecting the truthy
results; an exception raised by `_retrieve_repo` aborts the loop, discarding
the collected results, while the actions already performed stand. -/
def retrieve_batches (remote : String → RemoteStatus) :
    List BatchInfo → Except String (List String) × List RetrieveAction
  | [] => (Except.ok [], [])
  | b :: bs =>
    match retrieve_repo remote b with
    | (Except.error e, acts) => (Except.error e, acts)
    | (Except.ok r, acts) =>
      match retrieve_batches remote bs with
      | (Except.error e, acts') => (Except.error e, acts ++ acts')
      | (Except.ok rs, acts') =>
        (Except.ok (match r with
          | some x => x :: rs
          | none => rs), acts ++ acts')

/-- `retrieve_audit` (`runner.py:167-201`): load the pending file, skip when
the idempotency marker matches, otherwise process the batches in order; when
the loop completes with at least one result, write the marker with all of
the pending batch ids and delete the pending file.  An `Except.error` result
is an exception escaping the call: the persisted state is left unchanged and
neither the marker write nor the deletion happens. -/
def retrieve_audit (st : RunnerState) (remote : String → RemoteStatus) :
    Except String (List String) × RunnerState × List RetrieveAction :=
  match st.pendingFile with
  | none => (Except.ok [], st, [])
  | some pending =>
    if already_retrieved st.lastRetrieved pending then (Except.ok [], st, [])
    else
      match retrieve_batches remote pending.batches with
      | (Except.error e, actions) => (Except.error e, st, actions)
      | (Except.ok results, actions) =>
        if results.isEmpty then (Except.ok results, st, actions)
        else
          let ids := pending.batches.map (·.batch_id)
          (Except.ok results,
           { pendingFile := none, lastRetrieved := some ids },
           actions ++ [.markRetrieved ids, .deletePending])

/-! ## File selector (`focus/base.py:118-154`)

The repository is a finite listing of entries (regular files and
directories), each with its relative path as segments, its size, whether
`read_text` succeeds, and its text content.  `Path.glob` is modelled for
patterns made of literal characters, `*` within a segment, and a `**`
component matching zero or more segments — the shape of every pattern the
focus areas declare.  `sorted` on `Path` objects compares their relative
path strings, and Python's `ex in rel` exclusion test is substring
membership (`pyInStr`). -/

/-- One filesystem entry below the repository root. -/
structure FSEntry where
  segments : List String
  isFile : Bool
  size : Nat
  readable : Bool
  content : String
deriving DecidableEq, Repr

/-- The relative path string `str(path.relative_to(repo))`. -/
def relPath (e : FSEntry) : String := pyJoin "/" e.segments

/-- `MAX_FILE_SIZE` (`focus/base.py:12`). -/
def MAX_FILE_SIZE : Nat := 50000

/-- The always-excluded directory names (`focus/base.py:126`). -/
def defaultExcludes : List String :=
  ["node_modules", ".git", "__pycache__", ".venv", "venv", "dist", "build"]

/-- Fuel-driven matcher for one glob component (literal characters and `*`)
against one path segment; each call consumes one unit of fuel and either the
pattern or the segment shrinks, so `pat.length + s.length + 1` units always
suffice. -/
def segMatchF : Nat → List Char → List Char → Bool
  | 0, _, _ => false
  | fuel + 1, pat, s =>
    match pat, s with
    | [], [] => true
    | [], _ :: _ => false
    | '*' :: p, s =>
      segMatchF fuel p s ||
        (match s with
         | [] => false
         | _ :: s' => segMatchF fuel ('*' :: p) s')
    | _ :: _, [] => false
    | c :: p, c' :: s' => c = c' && segMatchF fuel p s'

/-- Match one glob component against one path segment. -/
def segMatch (pat s : List Char) : Bool :=
  segMatchF (pat.length + s.length + 1) pat s

/-- Fuel-driven matcher for a component list (a glob pattern split on `/`)
against a segment list; a `**` component matches zero or more segments. -/
def pathMatchF : Nat → List String → List String → Bool
  | 0, _, _ => false
  | fuel + 1, pcs, segs =>
    match pcs, segs with
    | [], [] => true
    | [], _ :: _ => false
    | "**" :: p, segs =>
      pathMatchF fuel p segs ||
        (match segs with
         | [] => false
         | _ :: s' => pathMatchF fuel ("**" :: p) s')
    | _ :: _, [] => false
    | pc :: p, sg :: s' => segMatch pc.data sg.data && pathMatchF fuel p s'

/-- Match a glob pattern's component list against a path's segment list. -/
def pathMatch (pcs segs : List String) : Bool :=
  pathMatchF (pcs.length + segs.length + 1) pcs segs

/-- Helper for splitting a glob pattern at `/`. -/
def splitSlashAux : List Char → List Char → List String
  | acc, [] => [⟨acc.reverse⟩]
  | acc, c :: rest =>
    if c = '/' then ⟨acc.reverse⟩ :: splitSlashAux [] rest
    else splitSlashAux (c :: acc) rest

/-- Split a glob pattern into its `/`-separated components. -/
def splitSlash (s : String) : List String := splitSlashAux [] s.data

/-- `repo.glob(pattern)` membership for one entry. -/
def globMatches (pattern : String) (e : FSEntry) : Bool :=
  pathMatch (splitSlash pattern) e.segments

/-- `sorted(repo.glob(pattern))`: the matching entries in relative-path
order. -/
def sortedGlob (fs : List FSEntry) (pattern : String) : List FSEntry :=
  pySorted (fun a b => pyStrLe (relPath a) (relPath b)) (fs.filter (globMatches pattern))

/-- The body of the inner loop of `gather_files_combined`
(`focus/base.py:137-152`), threading the `(seen_paths, files)` state.  The
checks run in source order: regular file, size ceiling, already seen,
excluded substring, readable. -/
def gatherStep (exclude : List String) (st : List String × List FileContent)
    (e : FSEntry) : List String × List FileContent :=
  let rel := relPath e
  if !e.isFile then st
  else if e.size > MAX_FILE_SIZE then st
  else if rel ∈ st.1 then st
  else if exclude.any (fun ex => pyInStr ex rel) then st
  else if !e.readable then st
  else (rel :: st.1, st.2 ++ [⟨rel, e.content⟩])

/-- `gather_files_combined` (`focus/base.py:118-154`) with the union of the
focus areas' patterns passed as a list: patterns are deduplicated and sorted
(`sorted(all_patterns)` over a set), and for each pattern the matching
entries are folded through `gatherStep`. -/
def gather_files_combined (fs : List FSEntry) (patterns : List String)
    (exclude_patterns : List String) : List FileContent :=
  let exclude := exclude_patterns ++ defaultExcludes
  let pats := pySorted pyStrLe patterns.eraseDups
  (pats.foldl
    (fun st pattern => (sortedGlob fs pattern).foldl (gatherStep exclude) st)
    ([], [])).2

/-- The selector behaviour claim C10 ascribes to the source, stated from the
spec's words for comparison (a second definition, not a translation of the
code): a file is excluded only when some excluded *directory name* is one of
the directories on its path, i.e. a proper-ancestor segment. -/
def liesInExcludedDir (exclude : List String) (e : FSEntry) : Bool :=
  exclude.any (fun ex => ex ∈ e.segments.dropLast)

/-- The per-entry filter conditions of `gatherStep`, bundled: regular file,
within the size ceiling, readable, and no exclude string occurring as a
substring of the relative path. -/
def entryEligible (exclude : List String) (e : FSEntry) : Bool :=
  e.isFile && decide (e.size ≤ MAX_FILE_SIZE) && e.readable &&
    exclude.all (fun ex => !(pyInStr ex (relPath e)))

/-! ## General helper lemmas -/

/-- Inserting into a list grows its length by one. -/
theorem length_insertSorted (le : α → α → Bool) (x : α) (m : List α) :
    (insertSorted le x m).length = m.length + 1 := by
  induction m with
  | nil => rfl
  | cons b m ihm =>
    unfold insertSorted
    split
    · rfl
    · simp only [List.length_cons, ihm]

/-- `pySorted` preserves length. -/
theorem length_pySorted (le : α → α → Bool) (l : List α) :
    (pySorted le l).length = l.length := by
  induction l with
  | nil => rfl
  | cons a l ih =>
    unfold pySorted
    rw [length_insertSorted, ih]
    rfl

/-- Inserting is a permutation of consing. -/
theorem perm_insertSorted (le : α → α → Bool) (x : α) (m : List α) :
    List.Perm (insertSorted le x m) (x :: m) := by
  induction m with
  | nil => exact List.Perm.refl _
  | cons b m ihm =>
    unfold insertSorted
    split
    · exact List.Perm.refl _
    · exact (List.Perm.cons b ihm).trans (List.Perm.swap x b m)

/-- `pySorted` permutes its input. -/
theorem perm_pySorted (le : α → α → Bool) (l : List α) :
    List.Perm (pySorted le l) l := by
  induction l with
  | nil => exact List.Perm.refl _
  | cons a l ih =>
    exact (perm_insertSorted le a (pySorted le l)).trans (List.Perm.cons a ih)

/-- Membership is preserved by `pySorted`. -/
theorem mem_pySorted (le : α → α → Bool) (l : List α) (a : α) :
    a ∈ pySorted le l ↔ a ∈ l :=
  (perm_pySorted le l).mem_iff

/-! ## Validation of the SHA-256 embedding against the NIST test vectors -/

set_option maxRecDepth 1000000 in
/-- SHA-256 of the empty message matches the NIST reference digest. -/
theorem sha256hex_empty :
    sha256hex "" =
      "e3b0c44298fc1c149afbf4c8996fb92427ae41e4649b934ca495991b7852b855" := by
  decide

set_option maxRecDepth 1000000 in
/-- SHA-256 of `"abc"` matches the NIST reference digest. -/
theorem sha256hex_abc :
    sha256hex "abc" =
      "ba7816bf8f01cfea414140de5dae2223b00361a396177a9cb410ff61f20015ad" := by
  decide

/-! ## Claim theorems -/

/-- Claim C3 (code_bug evidence).  The submit flow never applies the
pre-pass: the file list `_submit_repo` hands to `provider.submit_batch` is
always the gathered list unchanged, for every configuration and model — and
in particular for a configuration where the explicit trigger condition of
`_maybe_prepass` holds (pre-pass enabled, estimated tokens above the
threshold), the trigger flag is `true` while the submitted files are still
the original gathered files, with `run_prepass`/`enrich_files` never
invoked. -/
theorem submit_flow_never_runs_prepass :
    (∀ (files : List FileContent) (prepass : PrepassConfig) (model : String),
        submit_repo_submitted_files files prepass model = files) ∧
    (maybe_prepass [⟨"a.py", String.mk (List.replicate 40 'x')⟩]
        { enabled := true, threshold_tokens := 0, auto_disable := false }
        "claude-sonnet-4-5").1 = true ∧
    submit_repo_submitted_files [⟨"a.py", String.mk (List.replicate 40 'x')⟩]
        { enabled := true, threshold_tokens := 0, auto_disable := false }
        "claude-sonnet-4-5" =
      [⟨"a.py", String.mk (List.replicate 40 'x')⟩] := by
  refine ⟨?_, by decide, by decide⟩
  intro files prepass model
  unfold submit_repo_submitted_files maybe_prepass
  repeat' split
  all_goals rfl

/-- Claim C5 (confirmed).  When the idempotency marker records exactly the
same sorted batch-id list as the loaded PendingBatch and that list is
non-empty, `retrieve()` returns no results, leaves both persisted documents
unchanged, and performs no action at all: no provider polling, no decision
filtering, no report writing. -/
theorem retrieve_second_call_is_noop (st : RunnerState)
    (remote : String → RemoteStatus) (pending : PendingBatch)
    (recorded : List String)
    (hp : st.pendingFile = some pending)
    (hm : st.lastRetrieved = some recorded)
    (hids : pySorted pyStrLe recorded =
      pySorted pyStrLe (pending.batches.map (·.batch_id)))
    (hne : pending.batches ≠ []) :
    retrieve_audit st remote = (Except.ok [], st, []) := by
  have halready : already_retrieved st.lastRetrieved pending = true := by
    rw [hm]
    unfold already_retrieved
    rw [Bool.and_eq_true]
    constructor
    · rw [decide_eq_true_eq]
      exact hids.symm
    · rw [decide_eq_true_eq]
      rw [length_pySorted]
      simp only [List.length_map, List.length_pos]
      exact hne
  unfold retrieve_audit
  rw [hp]
  simp [halready]

/-- Witness for `retrieve_second_call_is_noop` at a one-batch pending file
whose marker already records its batch id. -/
theorem retrieve_second_call_is_noop_witness :
    retrieve_audit
      ⟨some ⟨"t", "security", ["security"], [⟨"r", "b1", "anthropic", 3⟩]⟩,
        some ["b1"]⟩
      (fun _ => .ended) =
    (Except.ok [],
     ⟨some ⟨"t", "security", ["security"], [⟨"r", "b1", "anthropic", 3⟩]⟩,
          some ["b1"]⟩, []) :=
  retrieve_second_call_is_noop _ _ _ _ rfl rfl (by decide) (by decide)

/-- Claim C7 (code_bug evidence).  `resolve_model_key` lands in
`MODEL_PRICING` for every provider/model pair, so `append_entry` always
reaches its `estimate_cost` call; that call passes the keyword arguments
`cache_read_tokens` and `cache_write_tokens`, which are not parameters of
`estimate_cost` (`pricing.py:101-106`), so every `append_entry` call raises
`TypeError` instead of appending a ledger record — here evaluated at the
input of the repository's own `test_creates_file_if_missing`. -/
theorem append_entry_always_raises :
    (∀ provider model,
        (MODEL_PRICING.lookup (resolve_model_key provider model)).isSome = true) ∧
    append_entry "test-repo" "security" "gemini" "gemini-2.0-flash"
        1000 500 0 0 10 "t0" =
      .error "TypeError: estimate_cost() got an unexpected keyword argument" := by
  constructor
  · intro provider model
    unfold resolve_model_key
    by_cases h0 : (MODEL_PRICING.lookup model).isSome = true
    · rw [if_pos h0]
      exact h0
    · rw [if_neg h0]
      by_cases ha : provider = "anthropic"
      · rw [if_pos ha]
        by_cases hop : pyInStr "opus" (pyLower model) = true
        · rw [if_pos hop]
          decide
        · rw [if_neg hop]
          decide
      · rw [if_neg ha]
        by_cases hg : provider = "gemini"
        · rw [if_pos hg]
          by_cases h25 : (pyInStr "2.5" model || pyInStr "2-5" model) = true
          · rw [if_pos h25]
            decide
          · rw [if_neg h25]
            decide
        · rw [if_neg hg]
          decide
  · rfl

/-- Claim C1 (counterexample).  Two parsed findings with identical `focus`,
`file`, `title` and `line` fields but different computed ids: the first
carries an explicit raw `focus`, the second gets the same focus backfilled
from `default_focus` — but the id is hashed from the raw object before the
backfill, so only the first id includes the focus prefix. -/
theorem parsed_fields_do_not_determine_id :
    ∃ f1 f2 : Finding,
      parse_finding
          ⟨"high", "a.py", "t", "d", .absent, none, some "security"⟩ none =
        some f1 ∧
      parse_finding
          ⟨"high", "a.py", "t", "d", .absent, none, none⟩ (some "security") =
        some f2 ∧
      f1.focus = f2.focus ∧ f1.file = f2.file ∧ f1.title = f2.title ∧
      f1.line = f2.line ∧ f1.id ≠ f2.id := by
  refine ⟨_, _, rfl, rfl, by decide, by decide, by decide, by decide, ?_⟩
  set_option maxRecDepth 1000000 in decide

/-- Claim C1 (amended).  The computed id is a pure function of the *raw*
finding object's `(focus, file, title, line)` as emitted by the model —
before default-focus backfill — and the function is the same across the
Anthropic, Gemini and OpenAI providers, hence stable across runs and
providers. -/
theorem finding_id_pure_in_raw_fields (r1 r2 : RawFinding)
    (hfile : r1.file = r2.file) (htitle : r1.title = r2.title)
    (hline : r1.line = r2.line) (hfocus : r1.focus = r2.focus) :
    anthropic_make_finding_id r1 = gemini_make_finding_id r2 ∧
    gemini_make_finding_id r1 = openai_make_finding_id r2 ∧
    openai_make_finding_id r1 = anthropic_make_finding_id r2 := by
  have hge : ∀ r, gemini_make_finding_id r = anthropic_make_finding_id r :=
    fun _ => rfl
  have hoe : ∀ r, openai_make_finding_id r = anthropic_make_finding_id r :=
    fun _ => rfl
  have hk : anthropic_make_finding_id r1 = anthropic_make_finding_id r2 := by
    unfold anthropic_make_finding_id anthropic_finding_key
    rw [hfile, htitle, hline, hfocus]
  exact ⟨by rw [hge r2]; exact hk,
         by rw [hge r1, hoe r2]; exact hk,
         by rw [hoe r1]; exact hk⟩

/-- Witness for `finding_id_pure_in_raw_fields` at a concrete raw finding. -/
theorem finding_id_pure_in_raw_fields_witness :
    anthropic_make_finding_id ⟨"high", "a.py", "t", "d", .absent, none, none⟩ =
      gemini_make_finding_id ⟨"high", "a.py", "t", "d", .absent, none, none⟩ ∧
    gemini_make_finding_id ⟨"high", "a.py", "t", "d", .absent, none, none⟩ =
      openai_make_finding_id ⟨"high", "a.py", "t", "d", .absent, none, none⟩ ∧
    openai_make_finding_id ⟨"high", "a.py", "t", "d", .absent, none, none⟩ =
      anthropic_make_finding_id ⟨"high", "a.py", "t", "d", .absent, none, none⟩ :=
  finding_id_pure_in_raw_fields _ _ rfl rfl rfl rfl

/-- `remove_baseline_decisions` keeps exactly the records failing
`removeCond` (in order, verbatim) and counts the removed ones. -/
theorem remove_baseline_decisions_eq (store : List Decision)
    (fids : Option (List String)) :
    remove_baseline_decisions store fids =
      (store.filter (fun d => !(removeCond fids d)),
       store.countP (removeCond fids)) := by
  induction store with
  | nil => rfl
  | cons d store ih =>
    unfold remove_baseline_decisions
    unfold remove_baseline_decisions at ih
    simp only [List.foldr_cons]
    rw [ih]
    by_cases h : removeCond fids d = true
    · simp [h, List.filter_cons, List.countP_cons]
    · simp only [Bool.not_eq_true] at h
      simp [h, List.filter_cons, List.countP_cons]

/-- Claim C6 (counterexample).  Two baseline records share a `finding_id`
(same focus, file, title and line across two runs) but carry different
severities; an undo filtered to `severity=high` removes *both*, although the
low-severity record matches no given filter — contradicting "deletes exactly
those stored records that are baseline-tagged and match all given filter
fields". -/
theorem undo_removes_nonmatching_shared_id :
    baselineUndo
      [⟨"x", .dismissed, "baseline", some 1, "baseline", some "a.py",
        some "h1", some "security", some "high", some "r1"⟩,
       ⟨"x", .dismissed, "baseline", some 2, "baseline", some "a.py",
        some "h1", some "security", some "low", some "r1"⟩]
      ⟨none, none, some ["high"]⟩ = ([], 2) ∧
    undoRecordMatches ⟨none, none, some ["high"]⟩
      ⟨"x", .dismissed, "baseline", some 2, "baseline", some "a.py",
        some "h1", some "security", some "low", some "r1"⟩ = false ∧
    (⟨"x", .dismissed, "baseline", some 2, "baseline", some "a.py",
        some "h1", some "security", some "low", some "r1"⟩ : Decision).reason =
      "baseline" := by
  refine ⟨by decide, by decide, rfl⟩

/-- Claim C6 (amended).  Baseline undo removes exactly the baseline-tagged
records whose `finding_id` coincides with that of *some* baseline record
matching all given filters (with no filter: every baseline record); every
other record — non-baseline, or baseline sharing no id with a
filter-matching baseline record — is kept verbatim, in order, working purely
from the persisted decisions. -/
theorem baselineUndo_removes_by_shared_id (store : List Decision)
    (flt : UndoFilter) :
    baselineUndo store flt =
      (store.filter (fun d => !(undoRemovedPred store flt d)),
       store.countP (undoRemovedPred store flt)) := by
  have hpt : ∀ d ∈ store,
      removeCond
        (if flt.repo.isSome ∨ flt.focus_names.isSome ∨ flt.sev_names.isSome
         then some
           (((store.filter (fun d => d.reason = "baseline")).filter
              (undoRecordMatches flt)).map (·.finding_id))
         else none) d = undoRemovedPred store flt d := by
    intro d _
    unfold removeCond undoRemovedPred
    by_cases hgiven :
        flt.repo.isSome ∨ flt.focus_names.isSome ∨ flt.sev_names.isSome
    · rw [if_pos hgiven, if_pos hgiven]
      congr 1
      rw [decide_eq_decide]
      constructor
      · intro hmem
        rw [List.mem_map] at hmem
        obtain ⟨d', hd', hid⟩ := hmem
        rw [List.mem_filter] at hd'
        obtain ⟨hd'base, hd'match⟩ := hd'
        rw [List.mem_filter] at hd'base
        exact ⟨d', hd'base.1, by simpa using hd'base.2, hd'match, hid⟩
      · intro hex
        obtain ⟨d', hd'mem, hd'reason, hd'match, hid⟩ := hex
        rw [List.mem_map]
        refine ⟨d', ?_, hid⟩
        rw [List.mem_filter, List.mem_filter]
        exact ⟨⟨hd'mem, by simpa using hd'reason⟩, hd'match⟩
    · rw [if_neg hgiven, if_neg hgiven]
  unfold baselineUndo
  by_cases hgiven :
      flt.repo.isSome ∨ flt.focus_names.isSome ∨ flt.sev_names.isSome
  · rw [if_pos hgiven, remove_baseline_decisions_eq]
    have hpt' := fun d hd => (hpt d hd).symm.trans (by rw [if_pos hgiven])
    refine Prod.ext ?_ ?_
    · show _ = store.filter _
      apply List.filter_congr
      intro d hd
      rw [hpt' d hd]
    · show _ = store.countP _
      apply List.countP_congr
      intro d hd
      rw [hpt' d hd]
  · rw [if_neg hgiven, remove_baseline_decisions_eq]
    have hpt' := fun d hd => (hpt d hd).symm.trans (by rw [if_neg hgiven])
    refine Prod.ext ?_ ?_
    · show _ = store.filter _
      apply List.filter_congr
      intro d hd
      rw [hpt' d hd]
    · show _ = store.countP _
      apply List.countP_congr
      intro d hd
      rw [hpt' d hd]

/-- `headMatch` holds when the needle is literally the head of the hay. -/
theorem headMatch_append (n r : List Char) : headMatch n (n ++ r) = true := by
  induction n with
  | nil => rfl
  | cons a nn ih => simp [headMatch, ih]

/-- A head match survives extending the hay on the right. -/
theorem headMatch_extend (n h post : List Char) (hm : headMatch n h = true) :
    headMatch n (h ++ post) = true := by
  induction n generalizing h with
  | nil => rfl
  | cons a nn ih =>
    cases h with
    | nil => simp [headMatch] at hm
    | cons b hh =>
      simp only [headMatch, Bool.and_eq_true, decide_eq_true_eq] at hm
      simp only [List.cons_append, headMatch, Bool.and_eq_true,
        decide_eq_true_eq]
      exact ⟨hm.1, ih hh hm.2⟩

/-- A substring of the hay is a substring after prepending. -/
theorem strContains_append_left (n pre h : List Char)
    (hc : strContains n h = true) : strContains n (pre ++ h) = true := by
  induction pre with
  | nil => simpa using hc
  | cons c pre ih =>
    simp only [List.cons_append, strContains, Bool.or_eq_true]
    exact Or.inr ih

/-- A substring of the hay is a substring after appending. -/
theorem strContains_append_right (n h post : List Char)
    (hc : strContains n h = true) : strContains n (h ++ post) = true := by
  induction h with
  | nil =>
    cases n with
    | nil => cases post <;> simp [strContains, headMatch]
    | cons a t => simp [strContains, headMatch] at hc
  | cons c t ih =>
    simp only [strContains, Bool.or_eq_true] at hc
    simp only [List.cons_append, strContains, Bool.or_eq_true]
    rcases hc with hm | hcc
    · exact Or.inl (headMatch_extend n _ post hm)
    · exact Or.inr (ih hcc)

/-- A needle occurs in itself followed by anything. -/
theorem strContains_self_append (n r : List Char) :
    strContains n (n ++ r) = true := by
  cases n with
  | nil =>
    cases r with
    | nil => rfl
    | cons c t => simp [strContains, headMatch]
  | cons a t =>
    simp only [List.cons_append, strContains, Bool.or_eq_true]
    exact Or.inl (by simpa using headMatch_append (a :: t) r)

/-- `pyJoin` on a two-or-more element list unfolds to one append step. -/
theorem pyJoin_cons_cons (sep a b : String) (t : List String) :
    pyJoin sep (a :: b :: t) = a ++ sep ++ pyJoin sep (b :: t) := rfl

/-- A substring of any member of the joined list occurs in the join. -/
theorem pyInStr_pyJoin_of_mem (sep : String) (l : List String) (x n : String)
    (hx : x ∈ l) (hn : strContains n.data x.data = true) :
    pyInStr n (pyJoin sep l) = true := by
  induction l with
  | nil => cases hx
  | cons a rest ih =>
    cases rest with
    | nil =>
      rcases List.mem_singleton.mp hx with rfl
      exact hn
    | cons b t =>
      rcases List.mem_cons.mp hx with rfl | hx'
      · show strContains n.data (pyJoin sep (x :: b :: t)).data = true
        rw [pyJoin_cons_cons, String.data_append, String.data_append,
          List.append_assoc]
        exact strContains_append_right _ _ _ hn
      · have hih := ih hx'
        show strContains n.data (pyJoin sep (a :: b :: t)).data = true
        rw [pyJoin_cons_cons, String.data_append]
        exact strContains_append_left _ _ _ hih

/-- The join is at least as long as any of its members. -/
theorem length_le_pyJoin_of_mem (sep : String) (l : List String) (x : String)
    (hx : x ∈ l) : x.length ≤ (pyJoin sep l).length := by
  induction l with
  | nil => cases hx
  | cons a rest ih =>
    cases rest with
    | nil =>
      rcases List.mem_singleton.mp hx with rfl
      exact le_refl _
    | cons b t =>
      rcases List.mem_cons.mp hx with rfl | hx'
      · rw [pyJoin_cons_cons, String.length_append, String.length_append]
        omega
      · have := ih hx'
        rw [pyJoin_cons_cons, String.length_append, String.length_append]
        omega

/-- One unfolding step of `enrich_files`. -/
theorem enrich_files_cons (f : FileContent) (files : List FileContent)
    (c : List FileClassification) :
    enrich_files (f :: files) c =
      (match tierOf c f.path with
       | .full => [f]
       | .snippet => [extract_file_snippets f]
       | .map => [extract_file_map f]
       | .skip => []) ++ enrich_files files c := by
  show (List.foldr _ [] (f :: files)) = _
  simp only [List.foldr_cons]
  cases tierOf c f.path <;> rfl

/-- Membership in the enriched list: every element arises from an input file
through the transform its classification tier selects, and skipped or
unmentioned files produce nothing. -/
theorem mem_enrich_files (e : FileContent) (files : List FileContent)
    (c : List FileClassification) :
    e ∈ enrich_files files c ↔
      ∃ f ∈ files, tierOf c f.path ≠ .skip ∧
        ((tierOf c f.path = .full ∧ e = f) ∨
         (tierOf c f.path = .snippet ∧ e = extract_file_snippets f) ∨
         (tierOf c f.path = .map ∧ e = extract_file_map f)) := by
  induction files with
  | nil => simp [enrich_files]
  | cons f files ih =>
    rw [enrich_files_cons, List.mem_append, ih]
    cases h : tierOf c f.path <;>
      simp [h, List.mem_cons, or_and_right, exists_or, eq_comm]

/-- The structural-map output always starts with the header line, so it is
never empty. -/
theorem extract_file_map_content_ne (f : FileContent) :
    (extract_file_map f).content ≠ "" := by
  unfold extract_file_map
  intro h
  have hlen := congrArg String.length h
  rw [String.length_append] at hlen
  have hhdr : fileMapHeader.length = 32 := by decide
  simp [hhdr] at hlen

/-- Claim C9 (counterexample).  A one-line file classified `medium`
(snippet tier) is retained with its content byte-for-byte unchanged and no
omission marker anywhere in it, contradicting "replaces a medium-classified
file's content with a head-plus-tail snippet containing an explicit omission
marker". -/
theorem medium_short_file_kept_verbatim :
    enrich_files [⟨"b.py", "x = 1"⟩] [⟨"b.py", .snippet, none⟩] =
      [⟨"b.py", "x = 1"⟩] ∧
    pyInStr "omitted" "x = 1" = false := by
  exact ⟨by decide, by decide⟩

/-- Claim C9 (amended).  Enrichment keeps a `high`-classified file unchanged,
keeps a `medium`-classified file unchanged when it has at most 50 lines and
otherwise replaces it by a head-plus-tail snippet containing the omission
marker, replaces a `low`-classified file by a structural map that always
starts with a non-empty header line, emits nothing for a file the classifier
did not mention (default skip), and — when every input file has non-empty
content — never emits a retained file with empty content. -/
theorem enrich_files_amended (files : List FileContent)
    (classified : List FileClassification) :
    (∀ e, e ∈ enrich_files files classified ↔
      ∃ f ∈ files, tierOf classified f.path ≠ .skip ∧
        ((tierOf classified f.path = .full ∧ e = f) ∨
         (tierOf classified f.path = .snippet ∧ e = extract_file_snippets f) ∨
         (tierOf classified f.path = .map ∧ e = extract_file_map f))) ∧
    (∀ f : FileContent, (pySplitlines f.content).length ≤ 50 →
      extract_file_snippets f = f) ∧
    (∀ f : FileContent, 50 < (pySplitlines f.content).length →
      (extract_file_snippets f).path = f.path ∧
      pyInStr " lines omitted] ..." (extract_file_snippets f).content = true) ∧
    (∀ f : FileContent,
      (extract_file_map f).path = f.path ∧ (extract_file_map f).content ≠ "") ∧
    ((∀ f ∈ files, f.content ≠ "") →
      ∀ e ∈ enrich_files files classified, e.content ≠ "") := by
  have hshort : ∀ f : FileContent, (pySplitlines f.content).length ≤ 50 →
      extract_file_snippets f = f := by
    intro f hf
    unfold extract_file_snippets
    rw [if_pos (by simpa using hf)]
  have hlong : ∀ f : FileContent, 50 < (pySplitlines f.content).length →
      (extract_file_snippets f).path = f.path ∧
      pyInStr " lines omitted] ..." (extract_file_snippets f).content = true := by
    intro f hf
    unfold extract_file_snippets
    rw [if_neg (by simpa using Nat.not_le.mpr hf)]
    refine ⟨rfl, ?_⟩
    apply pyInStr_pyJoin_of_mem _ _
      ("# ... [" ++ toString ((pySplitlines f.content).length - 50) ++
        " lines omitted] ...")
    · simp
    · have : ("# ... [" ++ toString ((pySplitlines f.content).length - 50) ++
          " lines omitted] ...") =
        ("# ... [" ++ toString ((pySplitlines f.content).length - 50)) ++
          " lines omitted] ..." := by
        rw [String.append_assoc]
      rw [this, String.data_append]
      have := strContains_self_append (" lines omitted] ...").data []
      rw [List.append_nil] at this
      exact strContains_append_left _ _ _ this
  have hmap : ∀ f : FileContent,
      (extract_file_map f).path = f.path ∧ (extract_file_map f).content ≠ "" :=
    fun f => ⟨rfl, extract_file_map_content_ne f⟩
  have hsnip_ne : ∀ f : FileContent, f.content ≠ "" →
      (extract_file_snippets f).content ≠ "" := by
    intro f hf
    by_cases hlen : (pySplitlines f.content).length ≤ 50
    · rw [hshort f hlen]
      exact hf
    · push_neg at hlen
      unfold extract_file_snippets
      rw [if_neg (by simpa using Nat.not_le.mpr hlen)]
      intro h
      dsimp only at h
      have hm : ("# ... [" ++ toString ((pySplitlines f.content).length - 50) ++
          " lines omitted] ...") ∈
          ((pySplitlines f.content).take (50 / 2) ++
            ["# ... [" ++ toString ((pySplitlines f.content).length - 50) ++
              " lines omitted] ..."] ++
            (if 50 / 2 = 0 then pySplitlines f.content
             else (pySplitlines f.content).drop
               ((pySplitlines f.content).length - 50 / 2))) := by simp
      have hle := length_le_pyJoin_of_mem "\n" _ _ hm
      rw [h] at hle
      have h19 : (" lines omitted] ..." : String).length = 19 := by decide
      have h7 : ("# ... [" : String).length = 7 := by decide
      have h0 : ("" : String).length = 0 := rfl
      rw [h0, String.length_append, String.length_append, h7, h19] at hle
      omega
  refine ⟨fun e => mem_enrich_files e files classified, hshort, hlong, hmap, ?_⟩
  intro hne e he
  rw [mem_enrich_files] at he
  obtain ⟨f, hfmem, -, hcase⟩ := he
  rcases hcase with ⟨-, he2⟩ | ⟨-, he2⟩ | ⟨-, he2⟩
  · rw [he2]
    exact hne f hfmem
  · rw [he2]
    exact hsnip_ne f (hne f hfmem)
  · rw [he2]
    exact (hmap f).2

/-- Witness for `enrich_files_amended`: a short snippet-tier file kept
verbatim, the omission marker present for a 51-line file, and a non-empty
structural map. -/
theorem enrich_files_amended_witness :
    extract_file_snippets ⟨"b.py", "x = 1"⟩ = ⟨"b.py", "x = 1"⟩ ∧
    pyInStr " lines omitted] ..."
      (extract_file_snippets
        ⟨"big.py", pyJoin "\n" (List.replicate 51 "l")⟩).content = true ∧
    (extract_file_map ⟨"m.py", "x"⟩).content ≠ "" :=
  ⟨(enrich_files_amended [] []).2.1 _ (by decide),
   ((enrich_files_amended [] []).2.2.1 _ (by decide)).2,
   ((enrich_files_amended [] []).2.2.2.1 _).2⟩

/-- `dateGt` is irreflexive. -/
theorem dateGt_irrefl (a : Option Int) : dateGt a a = false := by
  cases a <;> simp [dateGt]

/-- `dateGt` is asymmetric. -/
theorem dateGt_asymm {a b : Option Int} (h : dateGt a b = true) :
    dateGt b a = false := by
  cases a <;> cases b <;> simp_all [dateGt] <;> omega

/-- `dateGt` is transitive. -/
theorem dateGt_trans {a b c : Option Int} (hab : dateGt a b = true)
    (hbc : dateGt b c = true) : dateGt a c = true := by
  cases a <;> cases b <;> cases c <;> simp_all [dateGt] <;> omega

/-- Negative transitivity of `dateGt` (the underlying order is total). -/
theorem dateGt_neg_trans {a b c : Option Int} (hab : dateGt a b = false)
    (hbc : dateGt b c = false) : dateGt a c = false := by
  cases a <;> cases b <;> cases c <;> simp_all [dateGt] <;> omega

/-- Mutually non-greater dates are equal. -/
theorem dateGt_antisymm_eq {a b : Option Int} (hab : dateGt a b = false)
    (hba : dateGt b a = false) : a = b := by
  cases a <;> cases b <;> simp_all [dateGt] <;> omega

/-- A strictly greater date is a different date. -/
theorem dateGt_ne {a b : Option Int} (h : dateGt a b = true) : a ≠ b := by
  cases a <;> cases b <;> simp_all [dateGt] <;> omega

/-- The dict fold of `decision_map` from an arbitrary accumulator merges the
stored entry with the winner of the remaining list. -/
theorem decisionMap_foldl_eq (ds : List Decision)
    (m : String → Option Decision) (fid : String) :
    (ds.foldl
      (fun m d => fun fid =>
        if fid = d.finding_id then
          match m fid with
          | none => some d
          | some old => if dateGt d.date old.date then some d else some old
        else m fid)
      m) fid = decisionCombine (m fid) (pickBest ds fid) := by
  induction ds generalizing m with
  | nil =>
    cases h : m fid <;> simp [pickBest, decisionCombine, h]
  | cons d ds ih =>
    simp only [List.foldl_cons]
    rw [ih]
    by_cases hid : d.finding_id = fid
    · rw [if_pos hid.symm]
      simp only [pickBest, if_pos hid]
      cases hm : m fid with
      | none =>
        simp only [decisionCombine]
        cases hpb : pickBest ds fid with
        | none => simp [decisionCombine]
        | some b => simp [decisionCombine]
      | some old =>
        cases hpb : pickBest ds fid with
        | none =>
          dsimp only
          by_cases hdo : dateGt d.date old.date = true
          · simp [decisionCombine, hdo]
          · simp [decisionCombine, hdo]
        | some b =>
          dsimp only
          by_cases hbd : dateGt b.date d.date = true
          · by_cases hdo : dateGt d.date old.date = true
            · have hbo := dateGt_trans hbd hdo
              simp [decisionCombine, hbd, hdo, hbo]
            · simp [decisionCombine, hbd, hdo]
          · by_cases hdo : dateGt d.date old.date = true
            · simp [decisionCombine, hbd, hdo]
            · have hbo := dateGt_neg_trans (eq_false_of_ne_true hbd)
                (eq_false_of_ne_true hdo)
              simp [decisionCombine, hbd, hdo, hbo]
    · rw [if_neg (fun h => hid h.symm)]
      simp only [pickBest, if_neg hid]

/-- The `decision_map` lookup equals `pickBest`. -/
theorem decisionMap_eq_pickBest (ds : List Decision) (fid : String) :
    decisionMap ds fid = pickBest ds fid := by
  unfold decisionMap
  rw [decisionMap_foldl_eq]
  rfl

/-- `pickBest` yields nothing exactly when no stored decision carries the
id. -/
theorem pickBest_eq_none_iff (ds : List Decision) (fid : String) :
    pickBest ds fid = none ↔ ∀ d ∈ ds, d.finding_id ≠ fid := by
  induction ds with
  | nil => simp [pickBest]
  | cons d ds ih =>
    by_cases hid : d.finding_id = fid
    · simp only [pickBest, if_pos hid]
      constructor
      · intro h
        cases hpb : pickBest ds fid with
        | none =>
          rw [hpb] at h
          exact absurd h (by simp)
        | some b =>
          rw [hpb] at h
          dsimp only at h
          exact absurd h (by split <;> simp)
      · intro h
        exact absurd hid (h d (by simp))
    · simp only [pickBest, if_neg hid, ih]
      constructor
      · intro h d' hd'
        rcases List.mem_cons.mp hd' with rfl | hmem
        · exact hid
        · exact h d' hmem
      · intro h d' hd'
        exact h d' (List.mem_cons_of_mem _ hd')

/-- What `pickBest` returns is an effective decision in the claim's sense. -/
theorem pickBest_isEffective (ds : List Decision) (fid : String) :
    ∀ d0 : Decision, pickBest ds fid = some d0 →
      IsEffectiveDecision ds fid d0 := by
  induction ds with
  | nil =>
    intro d0 h
    simp [pickBest] at h
  | cons d ds ih =>
    intro d0 h
    by_cases hid : d.finding_id = fid
    · rw [pickBest, if_pos hid] at h
      cases hpb : pickBest ds fid with
      | none =>
        rw [hpb] at h
        simp only [Option.some.injEq] at h
        subst h
        refine ⟨[], ds, rfl, hid, ?_, by simp⟩
        intro d' hd' hf'
        rcases List.mem_cons.mp hd' with rfl | hmem
        · exact dateGt_irrefl _
        · exact absurd hf' ((pickBest_eq_none_iff ds fid).mp hpb d' hmem)
      | some b =>
        rw [hpb] at h
        dsimp only at h
        by_cases hbd : dateGt b.date d.date = true
        · rw [if_pos hbd] at h
          simp only [Option.some.injEq] at h
          subst h
          obtain ⟨pre, post, heq, hbfid, hnog, hpre⟩ := ih _ hpb
          refine ⟨d :: pre, post, by rw [heq]; rfl, hbfid, ?_, ?_⟩
          · intro d' hd' hf'
            rcases List.mem_cons.mp hd' with rfl | hmem
            · exact dateGt_asymm hbd
            · exact hnog d' hmem hf'
          · intro d' hd' hf'
            rcases List.mem_cons.mp hd' with rfl | hmem
            · exact Ne.symm (dateGt_ne hbd)
            · exact hpre d' hmem hf'
        · rw [if_neg hbd] at h
          simp only [Option.some.injEq] at h
          subst h
          obtain ⟨pre, post, heq, hbfid, hnog, hpre⟩ := ih _ hpb
          refine ⟨[], ds, rfl, hid, ?_, by simp⟩
          intro d' hd' hf'
          rcases List.mem_cons.mp hd' with rfl | hmem
          · exact dateGt_irrefl _
          · exact dateGt_neg_trans (hnog d' hmem hf')
              (eq_false_of_ne_true hbd)
    · rw [pickBest, if_neg hid] at h
      obtain ⟨pre, post, heq, hfid, hnog, hpre⟩ := ih _ h
      refine ⟨d :: pre, post, by rw [heq]; rfl, hfid, ?_, ?_⟩
      · intro d' hd' hf'
        rcases List.mem_cons.mp hd' with rfl | hmem
        · exact absurd hf' hid
        · exact hnog d' hmem hf'
      · intro d' hd' hf'
        rcases List.mem_cons.mp hd' with rfl | hmem
        · exact absurd hf' hid
        · exact hpre d' hmem hf'

/-- The effective decision for an id is unique. -/
theorem effectiveDecision_unique (ds : List Decision) (fid : String)
    (d1 d2 : Decision) (h1 : IsEffectiveDecision ds fid d1)
    (h2 : IsEffectiveDecision ds fid d2) : d1 = d2 := by
  obtain ⟨p1, q1, e1, f1, g1, r1⟩ := h1
  obtain ⟨p2, q2, e2, f2, g2, r2⟩ := h2
  have m1 : d1 ∈ ds := by
    rw [e1]
    exact List.mem_append_right _ (List.mem_cons_self _ _)
  have m2 : d2 ∈ ds := by
    rw [e2]
    exact List.mem_append_right _ (List.mem_cons_self _ _)
  have hdate : d1.date = d2.date := dateGt_antisymm_eq (g2 d1 m1 f1) (g1 d2 m2 f2)
  have key : ∀ (pa : List Decision) (qa : List Decision) (da : Decision)
      (pb : List Decision) (qb : List Decision) (db : Decision),
      ds = pa ++ da :: qa → ds = pb ++ db :: qb →
      pa.length < pb.length → da ∈ pb := by
    intro pa qa da pb qb db ea eb hlen
    have ht1 : ds.take (pa.length + 1) = pa ++ [da] := by
      rw [ea, show pa ++ da :: qa = (pa ++ [da]) ++ qa by simp]
      exact List.take_left' (by simp)
    have ht2 : ds.take pb.length = pb := by
      rw [eb]
      exact List.take_left' rfl
    have hstep : ds.take (pa.length + 1) = (ds.take pb.length).take
        (pa.length + 1) := by
      rw [List.take_take, min_eq_left (by omega)]
    have hda : da ∈ ds.take (pa.length + 1) := by
      rw [ht1]
      exact List.mem_append_right _ (List.mem_cons_self _ _)
    rw [hstep, ht2] at hda
    exact List.take_subset _ _ hda
  rcases Nat.lt_trichotomy p1.length p2.length with hlt | heqn | hgt
  · exact absurd hdate (r2 d1 (key p1 q1 d1 p2 q2 d2 e1 e2 hlt) f1)
  · obtain ⟨-, hq⟩ := List.append_inj (e1.symm.trans e2) heqn
    exact (List.cons_eq_cons.mp hq).1
  · exact absurd hdate.symm (r1 d2 (key p2 q2 d2 p1 q1 d1 e2 e1 hgt) f2)

/-- `pickBest` computes exactly the effective decision of claim C2. -/
theorem pickBest_eq_some_iff (ds : List Decision) (fid : String)
    (d : Decision) :
    pickBest ds fid = some d ↔ IsEffectiveDecision ds fid d := by
  constructor
  · exact pickBest_isEffective ds fid d
  · intro h
    cases hpb : pickBest ds fid with
    | none =>
      obtain ⟨pre, post, heq, hfid, -, -⟩ := h
      have hmem : d ∈ ds := by
        rw [heq]
        exact List.mem_append_right _ (List.mem_cons_self _ _)
      exact absurd hfid ((pickBest_eq_none_iff ds fid).mp hpb d hmem)
    | some b =>
      rw [effectiveDecision_unique ds fid d b h
        (pickBest_isEffective ds fid b hpb)]

/-- The `filter_findings` loop keeps exactly the resurfacing findings (in
order) and counts the suppressed ones. -/
theorem filter_findings_eq (fs : List Finding) (ds : List Decision)
    (env : String → Option String) (today expiryDays : Int) :
    filter_findings fs ds env today expiryDays =
      (fs.filter (findingResurfaces (decisionMap ds) env today expiryDays),
       fs.countP
        (fun f => !(findingResurfaces (decisionMap ds) env today expiryDays f))) := by
  unfold filter_findings
  induction fs with
  | nil => rfl
  | cons f fs ih =>
    simp only [List.foldr_cons, ih]
    by_cases h : findingResurfaces (decisionMap ds) env today expiryDays f = true
    · simp [h, List.filter_cons, List.countP_cons]
    · simp only [Bool.not_eq_true] at h
      simp [h, List.filter_cons, List.countP_cons]

/-- The per-finding resurfacing test, in the claim's terms: a finding
resurfaces iff it has no effective decision, or the effective decision is
strictly older than the expiry window, or it records a (truthy) file hash
that differs from the current digest of the finding's (truthy) file. -/
theorem findingResurfaces_iff (ds : List Decision)
    (env : String → Option String) (today expiryDays : Int) (f : Finding) :
    findingResurfaces (decisionMap ds) env today expiryDays f = true ↔
      ((∀ d ∈ ds, d.finding_id ≠ f.id) ∨
       ∃ d, IsEffectiveDecision ds f.id d ∧
         ((∃ dd, d.date = some dd ∧ today - dd > expiryDays) ∨
          (∃ h, d.file_hash = some h ∧ h ≠ "" ∧ f.file ≠ "" ∧
            env f.file ≠ some h))) := by
  unfold findingResurfaces
  rw [decisionMap_eq_pickBest]
  cases hpb : pickBest ds f.id with
  | none =>
    simp only [true_iff]
    exact Or.inl ((pickBest_eq_none_iff ds f.id).mp hpb)
  | some d0 =>
    have heff := pickBest_isEffective ds f.id d0 hpb
    constructor
    · intro h
      refine Or.inr ⟨d0, heff, ?_⟩
      rw [Bool.or_eq_true] at h
      rcases h with he | hs
      · left
        unfold decisionExpired at he
        cases hd : d0.date with
        | none => rw [hd] at he; exact absurd he (by simp)
        | some dd =>
          rw [hd] at he
          exact ⟨dd, rfl, by simpa using he⟩
      · right
        unfold decisionHashStale at hs
        by_cases hc : (pyTruthy d0.file_hash && !f.file.isEmpty) = true
        · rw [if_pos hc] at hs
          rw [Bool.and_eq_true] at hc
          obtain ⟨hth, htf⟩ := hc
          cases hfh : d0.file_hash with
          | none => rw [hfh] at hth; exact absurd hth (by decide)
          | some hsh =>
            rw [hfh] at hth hs
            refine ⟨hsh, rfl, ?_, ?_, ?_⟩
            · intro hemp
              rw [hemp] at hth
              exact absurd hth (by decide)
            · intro hemp
              rw [hemp] at htf
              exact absurd htf (by decide)
            · simpa using hs
        · rw [if_neg hc] at hs
          exact absurd hs (by simp)
    · intro h
      rcases h with hnone | ⟨d, hde, hbad⟩
      · obtain ⟨pre, post, heq, hfid, -, -⟩ := heff
        have hmem : d0 ∈ ds := by
          rw [heq]
          exact List.mem_append_right _ (List.mem_cons_self _ _)
        exact absurd hfid (hnone d0 hmem)
      · have hd : d = d0 := effectiveDecision_unique ds f.id d d0 hde heff
        subst hd
        rw [Bool.or_eq_true]
        rcases hbad with ⟨dd, hdd, hgt⟩ | ⟨hsh, hfh, hne, hfne, henv⟩
        · left
          unfold decisionExpired
          rw [hdd]
          simpa using hgt
        · right
          unfold decisionHashStale
          have hth : pyTruthy d.file_hash = true := by
            rw [hfh]
            have h1 : hsh.isEmpty = false :=
              Bool.eq_false_iff.mpr fun hh => hne ((String.isEmpty_iff _).mp hh)
            simp [pyTruthy, h1]
          have htf : (!f.file.isEmpty) = true := by
            have h2 : f.file.isEmpty = false :=
              Bool.eq_false_iff.mpr fun hh => hfne ((String.isEmpty_iff _).mp hh)
            simp [h2]
          rw [if_pos (by rw [hth, htf]; rfl)]
          rw [hfh]
          simpa using henv

/-- A filtered length plus the count of the complement gives the original
length. -/
theorem length_filter_add_countP_not (p : α → Bool) (l : List α) :
    (l.filter p).length + l.countP (fun a => !p a) = l.length := by
  induction l with
  | nil => rfl
  | cons a l ih =>
    by_cases h : p a = true
    · simp [List.filter_cons, List.countP_cons, h]
      omega
    · simp only [Bool.not_eq_true] at h
      simp [List.filter_cons, List.countP_cons, h]
      omega

/-- Claim C2 (confirmed).  `filter_findings` returns `(new, resolvedCount)`
where a finding is in `new` iff it has no effective decision (the stored
decision with the greatest date for its id, earliest on ties), or that
decision is strictly more than `expiryDays` days before today, or that
decision records a non-empty file hash differing from the current digest of
the finding's file; and every finding not in `new` counts toward
`resolvedCount` regardless of decision kind, so the two components always
partition the incoming findings. -/
theorem filter_findings_spec (fs : List Finding) (ds : List Decision)
    (env : String → Option String) (today expiryDays : Int) :
    (filter_findings fs ds env today expiryDays).1.length +
        (filter_findings fs ds env today expiryDays).2 = fs.length ∧
    ∀ f, f ∈ (filter_findings fs ds env today expiryDays).1 ↔
      f ∈ fs ∧
        ((∀ d ∈ ds, d.finding_id ≠ f.id) ∨
         ∃ d, IsEffectiveDecision ds f.id d ∧
           ((∃ dd, d.date = some dd ∧ today - dd > expiryDays) ∨
            (∃ h, d.file_hash = some h ∧ h ≠ "" ∧ f.file ≠ "" ∧
              env f.file ≠ some h))) := by
  rw [filter_findings_eq]
  constructor
  · exact length_filter_add_countP_not _ fs
  · intro f
    rw [List.mem_filter]
    exact and_congr_right fun _ =>
      findingResurfaces_iff ds env today expiryDays f

/-- When no positive tier threshold exists, the tier branch is off at zero
tokens, so raw cost vanishes at `(0, 0)`. -/
theorem rawCost_zero_zero (p : ModelPricing)
    (ht : ∀ t, p.tier_threshold = some t → 0 < t) :
    rawCost 0 0 p = 0 := by
  have hta : tieredActive p 0 = false := by
    unfold tieredActive
    cases htt : p.tier_threshold with
    | none => rfl
    | some t =>
      have := ht t htt
      simp [tierTruthy, htt]
      omega
  unfold rawCost
  rw [hta]
  norm_num

/-- With a positive (or absent) tier threshold, `estimate_cost` is the raw
cost times the discount factor, the zero special case included. -/
theorem estimate_cost_eq_raw (p : ModelPricing)
    (ht : ∀ t, p.tier_threshold = some t → 0 < t) (ub : Bool) (i o : Int) :
    estimate_cost i o p ub = rawCost i o p * discFactor p ub := by
  unfold estimate_cost
  by_cases h0 : i = 0 ∧ o = 0
  · obtain ⟨rfl, rfl⟩ := h0
    rw [if_pos ⟨rfl, rfl⟩, rawCost_zero_zero p ht]
    ring
  · rw [if_neg h0]

/-- The discount factor is positive whenever the discount is below one. -/
theorem discFactor_pos (p : ModelPricing) (hd : p.batch_discount < 1)
    (ub : Bool) : 0 < discFactor p ub := by
  unfold discFactor
  split
  · linarith
  · norm_num

/-- The discount factor is never negative (discount at most one). -/
theorem discFactor_nonneg (p : ModelPricing) (hd : p.batch_discount ≤ 1)
    (ub : Bool) : 0 ≤ discFactor p ub := by
  unfold discFactor
  split
  · linarith
  · norm_num

/-- Raw cost is monotone in the input token count. -/
theorem rawCost_mono_input (p : ModelPricing)
    (ha : 0 ≤ p.input_per_million) (hb : 0 ≤ p.output_per_million)
    (hah : tierTruthy p.tier_threshold = true →
      p.input_per_million ≤ pyOrZero p.input_per_million_high)
    (hbh : tierTruthy p.tier_threshold = true →
      p.output_per_million ≤ pyOrZero p.output_per_million_high)
    (i i' o : Int) (hii : i ≤ i') (ho : 0 ≤ o) :
    rawCost i o p ≤ rawCost i' o p := by
  have hiq : (i : ℚ) ≤ (i' : ℚ) := by exact_mod_cast hii
  have hoq : (0 : ℚ) ≤ (o : ℚ) := by exact_mod_cast ho
  unfold rawCost
  by_cases hta : tieredActive p i = true
  · have hta' : tieredActive p i' = true := by
      unfold tieredActive at hta ⊢
      rw [Bool.and_eq_true] at hta ⊢
      refine ⟨hta.1, ?_⟩
      have := of_decide_eq_true hta.2
      exact decide_eq_true (by omega)
    have htt : tierTruthy p.tier_threshold = true := by
      have hta2 := hta
      unfold tieredActive at hta2
      rw [Bool.and_eq_true] at hta2
      exact hta2.1
    have hah0 : 0 ≤ pyOrZero p.input_per_million_high := le_trans ha (hah htt)
    rw [if_pos hta, if_pos hta, if_pos hta', if_pos hta']
    have e1 : ∀ x : ℚ,
        ((p.tier_threshold.getD 0 : Int) : ℚ) / 1000000 * p.input_per_million +
          (x - ((p.tier_threshold.getD 0 : Int) : ℚ)) / 1000000 *
            pyOrZero p.input_per_million_high +
          (o : ℚ) / 1000000 * pyOrZero p.output_per_million_high =
        (((p.tier_threshold.getD 0 : Int) : ℚ) * p.input_per_million +
          (x - ((p.tier_threshold.getD 0 : Int) : ℚ)) *
            pyOrZero p.input_per_million_high +
          (o : ℚ) * pyOrZero p.output_per_million_high) / 1000000 := by
      intro x
      ring
    rw [e1, e1, div_le_div_right (by norm_num)]
    have hmul := mul_le_mul_of_nonneg_right
      (sub_le_sub_right hiq ((p.tier_threshold.getD 0 : Int) : ℚ)) hah0
    linarith
  · by_cases hta' : tieredActive p i' = true
    · have hta2 := hta'
      unfold tieredActive at hta2
      rw [Bool.and_eq_true] at hta2
      have htt : tierTruthy p.tier_threshold = true := hta2.1
      have hah0 : 0 ≤ pyOrZero p.input_per_million_high :=
        le_trans ha (hah htt)
      have hit : (i : ℚ) ≤ ((p.tier_threshold.getD 0 : Int) : ℚ) := by
        have hnot : ¬ (i > p.tier_threshold.getD 0) := by
          intro hc
          exact hta (by
            unfold tieredActive
            rw [Bool.and_eq_true]
            exact ⟨htt, decide_eq_true hc⟩)
        exact_mod_cast not_lt.mp hnot
      have hit' : ((p.tier_threshold.getD 0 : Int) : ℚ) < (i' : ℚ) := by
        have := of_decide_eq_true hta2.2
        exact_mod_cast this
      rw [if_neg hta, if_neg hta, if_pos hta', if_pos hta']
      have e0 : (i : ℚ) / 1000000 * p.input_per_million +
          (o : ℚ) / 1000000 * p.output_per_million =
          ((i : ℚ) * p.input_per_million +
            (o : ℚ) * p.output_per_million) / 1000000 := by
        ring
      have e1 : ((p.tier_threshold.getD 0 : Int) : ℚ) / 1000000 *
            p.input_per_million +
          ((i' : ℚ) - ((p.tier_threshold.getD 0 : Int) : ℚ)) / 1000000 *
            pyOrZero p.input_per_million_high +
          (o : ℚ) / 1000000 * pyOrZero p.output_per_million_high =
          (((p.tier_threshold.getD 0 : Int) : ℚ) * p.input_per_million +
            ((i' : ℚ) - ((p.tier_threshold.getD 0 : Int) : ℚ)) *
              pyOrZero p.input_per_million_high +
            (o : ℚ) * pyOrZero p.output_per_million_high) / 1000000 := by
        ring
      rw [e0, e1, div_le_div_right (by norm_num)]
      have k1 : (i : ℚ) * p.input_per_million ≤
          ((p.tier_threshold.getD 0 : Int) : ℚ) * p.input_per_million :=
        mul_le_mul_of_nonneg_right hit ha
      have k2 : (0 : ℚ) ≤
          ((i' : ℚ) - ((p.tier_threshold.getD 0 : Int) : ℚ)) *
            pyOrZero p.input_per_million_high :=
        mul_nonneg (by linarith) hah0
      have k3 : (o : ℚ) * p.output_per_million ≤
          (o : ℚ) * pyOrZero p.output_per_million_high :=
        mul_le_mul_of_nonneg_left (hbh htt) hoq
      linarith
    · rw [if_neg hta, if_neg hta, if_neg hta', if_neg hta']
      have e0 : ∀ x : ℚ, x / 1000000 * p.input_per_million +
          (o : ℚ) / 1000000 * p.output_per_million =
          (x * p.input_per_million + (o : ℚ) * p.output_per_million) /
            1000000 := by
        intro x
        ring
      rw [e0, e0, div_le_div_right (by norm_num)]
      have := mul_le_mul_of_nonneg_right hiq ha
      linarith

/-- Raw cost is monotone in the output token count. -/
theorem rawCost_mono_output (p : ModelPricing)
    (hb : 0 ≤ p.output_per_million)
    (hbh0 : 0 ≤ pyOrZero p.output_per_million_high)
    (i o o' : Int) (hoo : o ≤ o') :
    rawCost i o p ≤ rawCost i o' p := by
  have hoq : (o : ℚ) ≤ (o' : ℚ) := by exact_mod_cast hoo
  unfold rawCost
  by_cases hta : tieredActive p i = true
  · rw [if_pos hta, if_pos hta, if_pos hta]
    have : (o : ℚ) / 1000000 * pyOrZero p.output_per_million_high ≤
        (o' : ℚ) / 1000000 * pyOrZero p.output_per_million_high := by
      apply mul_le_mul_of_nonneg_right _ hbh0
      exact (div_le_div_right (by norm_num)).mpr hoq
    linarith
  · rw [if_neg hta, if_neg hta, if_neg hta]
    have : (o : ℚ) / 1000000 * p.output_per_million ≤
        (o' : ℚ) / 1000000 * p.output_per_million := by
      apply mul_le_mul_of_nonneg_right _ hb
      exact (div_le_div_right (by norm_num)).mpr hoq
    linarith

/-- Above the tier threshold the marginal raw cost of one more input token
strictly exceeds the marginal raw cost below it. -/
theorem rawCost_marginal_strict (p : ModelPricing) (t : Int)
    (htt : p.tier_threshold = some t) (htpos : 0 < t)
    (hahs : p.input_per_million < pyOrZero p.input_per_million_high)
    (hbh : p.output_per_million ≤ pyOrZero p.output_per_million_high)
    (i1 i2 o : Int) (h1 : i1 + 1 ≤ t) (h2 : t ≤ i2) (ho : 0 ≤ o) :
    rawCost (i1 + 1) o p - rawCost i1 o p <
      rawCost (i2 + 1) o p - rawCost i2 o p := by
  have hoq : (0 : ℚ) ≤ (o : ℚ) := by exact_mod_cast ho
  have hf1 : tieredActive p i1 = false := by
    simp only [tieredActive, htt, tierTruthy, Option.getD_some]
    simp only [Bool.and_eq_false_iff]
    right
    simp only [decide_eq_false_iff_not]
    omega
  have hf1' : tieredActive p (i1 + 1) = false := by
    simp only [tieredActive, htt, tierTruthy, Option.getD_some]
    simp only [Bool.and_eq_false_iff]
    right
    simp only [decide_eq_false_iff_not]
    omega
  have ht2' : tieredActive p (i2 + 1) = true := by
    simp only [tieredActive, htt, tierTruthy, Option.getD_some,
      Bool.and_eq_true, decide_eq_true_eq]
    omega
  have hlhs : rawCost (i1 + 1) o p - rawCost i1 o p =
      p.input_per_million / 1000000 := by
    unfold rawCost
    rw [if_neg (by simp [hf1']), if_neg (by simp [hf1']),
      if_neg (by simp [hf1]), if_neg (by simp [hf1])]
    push_cast
    ring
  rw [hlhs]
  by_cases hc2 : tieredActive p i2 = true
  · have hrhs : rawCost (i2 + 1) o p - rawCost i2 o p =
        pyOrZero p.input_per_million_high / 1000000 := by
      unfold rawCost
      rw [if_pos ht2', if_pos ht2', if_pos hc2, if_pos hc2]
      rw [htt]
      push_cast
      ring
    rw [hrhs]
    exact (div_lt_div_right (by norm_num)).mpr hahs
  · have hi2t : i2 = t := by
      simp only [tieredActive, htt, tierTruthy, Option.getD_some,
        Bool.and_eq_true, decide_eq_true_eq, not_and] at hc2
      by_cases htz : t = 0
      · omega
      · have := hc2 htz
        omega
    have hrhs : rawCost (i2 + 1) o p - rawCost i2 o p =
        (pyOrZero p.input_per_million_high +
          (o : ℚ) * (pyOrZero p.output_per_million_high -
            p.output_per_million)) / 1000000 := by
      unfold rawCost
      rw [if_pos ht2', if_pos ht2', if_neg (by simp [hc2]),
        if_neg (by simp [hc2])]
      rw [htt]
      simp only [Option.getD_some]
      subst hi2t
      push_cast
      ring
    rw [hrhs]
    rw [div_lt_div_right (by norm_num)]
    have : (0 : ℚ) ≤ (o : ℚ) * (pyOrZero p.output_per_million_high -
        p.output_per_million) := mul_nonneg hoq (by linarith)
    linarith

/-- Monotonicity of `estimate_cost` in both token counts, under the actual
pricing-table constraints. -/
theorem estimate_cost_mono (p : ModelPricing)
    (ha : 0 ≤ p.input_per_million) (hb : 0 ≤ p.output_per_million)
    (ht : ∀ t, p.tier_threshold = some t → 0 < t)
    (hah : tierTruthy p.tier_threshold = true →
      p.input_per_million ≤ pyOrZero p.input_per_million_high)
    (hbh : tierTruthy p.tier_threshold = true →
      p.output_per_million ≤ pyOrZero p.output_per_million_high)
    (hbh0 : 0 ≤ pyOrZero p.output_per_million_high)
    (hd1 : p.batch_discount ≤ 1) (ub : Bool) :
    (∀ i i' o : Int, i ≤ i' → 0 ≤ o →
      estimate_cost i o p ub ≤ estimate_cost i' o p ub) ∧
    (∀ i o o' : Int, o ≤ o' →
      estimate_cost i o p ub ≤ estimate_cost i o' p ub) := by
  constructor
  · intro i i' o hii ho
    rw [estimate_cost_eq_raw p ht, estimate_cost_eq_raw p ht]
    exact mul_le_mul_of_nonneg_right
      (rawCost_mono_input p ha hb hah hbh i i' o hii ho)
      (discFactor_nonneg p hd1 ub)
  · intro i o o' hoo
    rw [estimate_cost_eq_raw p ht, estimate_cost_eq_raw p ht]
    exact mul_le_mul_of_nonneg_right
      (rawCost_mono_output p hb hbh0 i o o' hoo)
      (discFactor_nonneg p hd1 ub)

/-- Strict tiered marginal cost of `estimate_cost`, under the actual
pricing-table constraints. -/
theorem estimate_cost_marginal (p : ModelPricing) (t : Int)
    (htt : p.tier_threshold = some t) (htpos : 0 < t)
    (hahs : p.input_per_million < pyOrZero p.input_per_million_high)
    (hbh : p.output_per_million ≤ pyOrZero p.output_per_million_high)
    (hd1 : p.batch_discount < 1) (ub : Bool)
    (i1 i2 o : Int) (h1 : i1 + 1 ≤ t) (h2 : t ≤ i2) (ho : 0 ≤ o) :
    estimate_cost (i1 + 1) o p ub - estimate_cost i1 o p ub <
      estimate_cost (i2 + 1) o p ub - estimate_cost i2 o p ub := by
  have ht' : ∀ t', p.tier_threshold = some t' → 0 < t' := by
    intro t' h'
    rw [htt] at h'
    cases h'
    exact htpos
  rw [estimate_cost_eq_raw p ht', estimate_cost_eq_raw p ht',
    estimate_cost_eq_raw p ht', estimate_cost_eq_raw p ht']
  have hraw := rawCost_marginal_strict p t htt htpos hahs hbh i1 i2 o h1 h2 ho
  have hD := discFactor_pos p hd1 ub
  nlinarith [mul_lt_mul_of_pos_right hraw hD]

/-- Claim C8 (confirmed).  For every model in the pricing table and fixed
batch setting, `estimate_cost` is non-decreasing in the input tokens for any
fixed output tokens and non-decreasing in the output tokens for any fixed
input tokens; and for a model with a tier threshold, the marginal cost of one
additional input token at-or-above the threshold strictly exceeds the
marginal cost strictly below it. -/
theorem pricing_monotone_and_tiered_marginal :
    ∀ key p, (key, p) ∈ MODEL_PRICING → ∀ ub : Bool,
      (∀ i i' o : Int, i ≤ i' → 0 ≤ o →
        estimate_cost i o p ub ≤ estimate_cost i' o p ub) ∧
      (∀ i o o' : Int, o ≤ o' →
        estimate_cost i o p ub ≤ estimate_cost i o' p ub) ∧
      (∀ t, p.tier_threshold = some t →
        ∀ i1 i2 o : Int, i1 + 1 ≤ t → t ≤ i2 → 0 ≤ o →
          estimate_cost (i1 + 1) o p ub - estimate_cost i1 o p ub <
            estimate_cost (i2 + 1) o p ub - estimate_cost i2 o p ub) := by
  intro key p hmem ub
  simp only [ MODEL_PRICING, List.mem_cons, List.not_mem_nil, or_false, Prod.mk.injEq] at hmem
  rcases hmem with ⟨-, rfl⟩ | ⟨-, rfl⟩ | ⟨-, rfl⟩ | ⟨-, rfl⟩
  · have hm := estimate_cost_mono
      ({ input_per_million := 5, output_per_million := 25, tier_threshold := some 200000, input_per_million_high := some 10, output_per_million_high := some (75/2), batch_discount := 1/2, context_window := 200000 } : ModelPricing)
      (by norm_num) (by norm_num)
      (by intro t h; simp only [Option.some.injEq] at h; omega)
      (by intro _; norm_num [pyOrZero])
      (by intro _; norm_num [pyOrZero])
      (by norm_num [pyOrZero]) (by norm_num) ub
    refine ⟨hm.1, hm.2, ?_⟩
    intro t h i1 i2 o h1 h2 ho
    simp only [Option.some.injEq] at h
    subst h
    exact estimate_cost_marginal
      ({ input_per_million := 5, output_per_million := 25, tier_threshold := some 200000, input_per_million_high := some 10, output_per_million_high := some (75/2), batch_discount := 1/2, context_window := 200000 } : ModelPricing)
      200000 rfl (by norm_num)
      (by norm_num [pyOrZero]) (by norm_num [pyOrZero]) (by norm_num) ub
      i1 i2 o h1 h2 ho
  · have hm := estimate_cost_mono
      ({ input_per_million := 3, output_per_million := 15, tier_threshold := some 200000, input_per_million_high := some 6, output_per_million_high := some (45/2), batch_discount := 1/2, context_window := 200000 } : ModelPricing)
      (by norm_num) (by norm_num)
      (by intro t h; simp only [Option.some.injEq] at h; omega)
      (by intro _; norm_num [pyOrZero])
      (by intro _; norm_num [pyOrZero])
      (by norm_num [pyOrZero]) (by norm_num) ub
    refine ⟨hm.1, hm.2, ?_⟩
    intro t h i1 i2 o h1 h2 ho
    simp only [Option.some.injEq] at h
    subst h
    exact estimate_cost_marginal
      ({ input_per_million := 3, output_per_million := 15, tier_threshold := some 200000, input_per_million_high := some 6, output_per_million_high := some (45/2), batch_discount := 1/2, context_window := 200000 } : ModelPricing)
      200000 rfl (by norm_num)
      (by norm_num [pyOrZero]) (by norm_num [pyOrZero]) (by norm_num) ub
      i1 i2 o h1 h2 ho
  · have hm := estimate_cost_mono
      ({ input_per_million := 3/10, output_per_million := 5/2, tier_threshold := none, input_per_million_high := none, output_per_million_high := none, batch_discount := 0, context_window := 1000000 } : ModelPricing)
      (by norm_num) (by norm_num)
      (by intro t h; simp at h)
      (by intro h; simp [tierTruthy] at h)
      (by intro h; simp [tierTruthy] at h)
      (by norm_num [pyOrZero]) (by norm_num) ub
    refine ⟨hm.1, hm.2, ?_⟩
    intro t h
    simp at h
  · have hm := estimate_cost_mono
      ({ input_per_million := 1/10, output_per_million := 2/5, tier_threshold := none, input_per_million_high := none, output_per_million_high := none, batch_discount := 0, context_window := 1000000 } : ModelPricing)
      (by norm_num) (by norm_num)
      (by intro t h; simp at h)
      (by intro h; simp [tierTruthy] at h)
      (by intro h; simp [tierTruthy] at h)
      (by norm_num [pyOrZero]) (by norm_num) ub
    refine ⟨hm.1, hm.2, ?_⟩
    intro t h
    simp at h

/-- Witness for `pricing_monotone_and_tiered_marginal` at the Opus table
entry with concrete token counts straddling the 200K tier. -/
theorem pricing_monotone_and_tiered_marginal_witness :
    estimate_cost 100 50
        { input_per_million := 5, output_per_million := 25,
          tier_threshold := some 200000,
          input_per_million_high := some 10,
          output_per_million_high := some (75/2),
          batch_discount := 1/2, context_window := 200000 } true ≤
      estimate_cost 200 50
        { input_per_million := 5, output_per_million := 25,
          tier_threshold := some 200000,
          input_per_million_high := some 10,
          output_per_million_high := some (75/2),
          batch_discount := 1/2, context_window := 200000 } true ∧
    estimate_cost (100 + 1) 50
          { input_per_million := 5, output_per_million := 25,
            tier_threshold := some 200000,
            input_per_million_high := some 10,
            output_per_million_high := some (75/2),
            batch_discount := 1/2, context_window := 200000 } true -
        estimate_cost 100 50
          { input_per_million := 5, output_per_million := 25,
            tier_threshold := some 200000,
            input_per_million_high := some 10,
            output_per_million_high := some (75/2),
            batch_discount := 1/2, context_window := 200000 } true <
      estimate_cost (200000 + 1) 50
          { input_per_million := 5, output_per_million := 25,
            tier_threshold := some 200000,
            input_per_million_high := some 10,
            output_per_million_high := some (75/2),
            batch_discount := 1/2, context_window := 200000 } true -
        estimate_cost 200000 50
          { input_per_million := 5, output_per_million := 25,
            tier_threshold := some 200000,
            input_per_million_high := some 10,
            output_per_million_high := some (75/2),
            batch_discount := 1/2, context_window := 200000 } true := by
  have h := pricing_monotone_and_tiered_marginal "claude-opus-4-6"
    { input_per_million := 5, output_per_million := 25,
      tier_threshold := some 200000,
      input_per_million_high := some 10,
      output_per_million_high := some (75/2),
      batch_discount := 1/2, context_window := 200000 }
    (List.mem_cons_self _ _) true
  exact ⟨h.1 100 200 50 (by norm_num) (by norm_num),
    h.2.2 200000 rfl 100 200000 50 (by norm_num) (by norm_num) (by norm_num)⟩

/-! ## C10: the combined file selector -/

theorem entryEligible_iff (exclude : List String) (e : FSEntry) :
    entryEligible exclude e = true ↔
      e.isFile = true ∧ e.size ≤ MAX_FILE_SIZE ∧ e.readable = true ∧
        ∀ ex ∈ exclude, pyInStr ex (relPath e) = false := by
  simp [entryEligible, List.all_eq_true, and_assoc]

theorem gatherStep_eq (exclude : List String)
    (st : List String × List FileContent) (e : FSEntry) :
    gatherStep exclude st e =
      if entryEligible exclude e = true ∧ relPath e ∉ st.1 then
        (relPath e :: st.1, st.2 ++ [⟨relPath e, e.content⟩])
      else st := by
  by_cases h1 : e.isFile = true
  · by_cases h2 : e.size ≤ MAX_FILE_SIZE
    · by_cases h5 : relPath e ∈ st.1
      · rw [if_neg (fun h => h.2 h5)]
        simp only [gatherStep]
        rw [if_neg (by simp [h1]), if_neg (by omega), if_pos h5]
      · by_cases h4 : ∀ ex ∈ exclude, pyInStr ex (relPath e) = false
        · by_cases h3 : e.readable = true
          · rw [if_pos ⟨entryEligible_iff exclude e |>.mpr ⟨h1, h2, h3, h4⟩, h5⟩]
            have hany : ¬ (exclude.any (fun x => pyInStr x (relPath e)) = true) := by
              rw [List.any_eq_true]
              rintro ⟨x, hx, hpy⟩
              rw [h4 x hx] at hpy
              exact Bool.false_ne_true hpy
            simp only [gatherStep]
            rw [if_neg (by simp [h1]), if_neg (by omega), if_neg h5, if_neg hany,
              if_neg (by simp [h3])]
          · have helig : ¬ entryEligible exclude e = true := by
              rw [entryEligible_iff]
              rintro ⟨-, -, h3', -⟩
              exact h3 h3'
            rw [if_neg (fun h => helig h.1)]
            have h3' : e.readable = false := by
              revert h3; cases e.readable <;> simp
            have hany : ¬ (exclude.any (fun x => pyInStr x (relPath e)) = true) := by
              rw [List.any_eq_true]
              rintro ⟨x, hx, hpy⟩
              rw [h4 x hx] at hpy
              exact Bool.false_ne_true hpy
            simp only [gatherStep]
            rw [if_neg (by simp [h1]), if_neg (by omega), if_neg h5, if_neg hany,
              if_pos (by simp [h3'])]
        · have helig : ¬ entryEligible exclude e = true := by
            rw [entryEligible_iff]
            rintro ⟨-, -, -, hall⟩
            exact h4 hall
          rw [if_neg (fun h => helig h.1)]
          push_neg at h4
          obtain ⟨ex, hex, hne⟩ := h4
          have hany : exclude.any (fun x => pyInStr x (relPath e)) = true := by
            rw [List.any_eq_true]
            refine ⟨ex, hex, ?_⟩
            revert hne; cases pyInStr ex (relPath e) <;> simp
          simp only [gatherStep]
          rw [if_neg (by simp [h1]), if_neg (by omega), if_neg h5, if_pos hany]
    · have helig : ¬ entryEligible exclude e = true := by
        rw [entryEligible_iff]
        rintro ⟨-, h2', -, -⟩
        exact h2 h2'
      rw [if_neg (fun h => helig h.1)]
      simp only [gatherStep]
      rw [if_neg (by simp [h1]), if_pos (by omega)]
  · have helig : ¬ entryEligible exclude e = true := by
      rw [entryEligible_iff]
      rintro ⟨h1', -, -, -⟩
      exact h1 h1'
    rw [if_neg (fun h => helig h.1)]
    have h1' : e.isFile = false := by
      revert h1; cases e.isFile <;> simp
    simp only [gatherStep]
    rw [if_pos (by simp [h1'])]

theorem mem_eraseDupsLoop [BEq α] [LawfulBEq α] (as : List α) :
    ∀ (bs : List α) (a : α),
      a ∈ List.eraseDups.loop as bs ↔ a ∈ as ∨ a ∈ bs.reverse := by
  induction as with
  | nil => intro bs a; simp [List.eraseDups.loop]
  | cons x as ih =>
    intro bs a
    unfold List.eraseDups.loop
    cases hbe : bs.elem x with
    | true =>
      have hx : x ∈ bs := List.elem_iff.mp hbe
      simp only [ih bs a, List.mem_cons, List.mem_reverse]
      constructor
      · rintro (h | h)
        · exact Or.inl (Or.inr h)
        · exact Or.inr h
      · rintro ((rfl | h) | h)
        · exact Or.inr hx
        · exact Or.inl h
        · exact Or.inr h
    | false =>
      simp only [ih (x :: bs) a, List.mem_cons, List.mem_reverse]
      tauto

theorem mem_eraseDups [BEq α] [LawfulBEq α] (l : List α) (a : α) :
    a ∈ l.eraseDups ↔ a ∈ l := by
  unfold List.eraseDups
  rw [mem_eraseDupsLoop]
  simp

theorem mem_sortedGlob (fs : List FSEntry) (pat : String) (e : FSEntry) :
    e ∈ sortedGlob fs pat ↔ e ∈ fs ∧ globMatches pat e = true := by
  unfold sortedGlob
  rw [mem_pySorted, List.mem_filter]

theorem nodup_sortedGlob_map (fs : List FSEntry) (pat : String)
    (hfs : (fs.map relPath).Nodup) :
    ((sortedGlob fs pat).map relPath).Nodup := by
  have hperm : List.Perm ((sortedGlob fs pat).map relPath)
      ((fs.filter (globMatches pat)).map relPath) :=
    (perm_pySorted _ _).map relPath
  have hsub : List.Sublist ((fs.filter (globMatches pat)).map relPath)
      (fs.map relPath) := (List.filter_sublist fs).map relPath
  exact hperm.nodup_iff.mpr (hfs.sublist hsub)

theorem gatherFold_spec (exclude : List String) :
    ∀ (es : List FSEntry) (st : List String × List FileContent),
      (es.map relPath).Nodup →
      (∀ s, s ∈ st.1 ↔ s ∈ st.2.map FileContent.path) →
      (st.2.map FileContent.path).Nodup →
      (∀ s, s ∈ (es.foldl (gatherStep exclude) st).1 ↔
        s ∈ (es.foldl (gatherStep exclude) st).2.map FileContent.path) ∧
      ((es.foldl (gatherStep exclude) st).2.map FileContent.path).Nodup ∧
      (∀ fc, fc ∈ (es.foldl (gatherStep exclude) st).2 ↔ fc ∈ st.2 ∨
        ∃ e, e ∈ es ∧ entryEligible exclude e = true ∧ relPath e ∉ st.1 ∧
          fc = ⟨relPath e, e.content⟩) ∧
      (∀ s, s ∈ (es.foldl (gatherStep exclude) st).1 ↔ s ∈ st.1 ∨
        ∃ e, e ∈ es ∧ entryEligible exclude e = true ∧ relPath e ∉ st.1 ∧
          s = relPath e) := by
  intro es
  induction es with
  | nil =>
    intro st _ hA hB
    exact ⟨hA, hB, by simp, by simp⟩
  | cons e es ih =>
    intro st hnd hA hB
    rw [List.map_cons, List.nodup_cons] at hnd
    obtain ⟨hne, hndt⟩ := hnd
    rw [List.foldl_cons, gatherStep_eq]
    by_cases hc : entryEligible exclude e = true ∧ relPath e ∉ st.1
    · rw [if_pos hc]
      obtain ⟨helig, hnotin⟩ := hc
      have hnotin2 : relPath e ∉ st.2.map FileContent.path :=
        fun h => hnotin ((hA _).mpr h)
      have hA' : ∀ s, s ∈ (relPath e :: st.1) ↔
          s ∈ ((st.2 ++ [(⟨relPath e, e.content⟩ : FileContent)]).map
            FileContent.path) := by
        intro s
        simp only [List.mem_cons, List.map_append, List.map_cons, List.map_nil,
          List.mem_append, List.mem_singleton, hA s]
        constructor
        · rintro (rfl | h)
          · exact Or.inr (Or.inl rfl)
          · exact Or.inl h
        · rintro (h | h | h)
          · exact Or.inr h
          · exact Or.inl h
          · exact absurd h (List.not_mem_nil _)
      have hB' : (((st.2 ++ [(⟨relPath e, e.content⟩ : FileContent)]).map
          FileContent.path)).Nodup := by
        simp only [List.map_append, List.map_cons, List.map_nil]
        rw [List.nodup_append]
        refine ⟨hB, by simp, ?_⟩
        intro x hx hx'
        simp at hx'
        exact hnotin2 (hx' ▸ hx)
      obtain ⟨i1, i2, i3, i4⟩ :=
        ih (relPath e :: st.1, st.2 ++ [(⟨relPath e, e.content⟩ : FileContent)])
          hndt hA' hB'
      refine ⟨i1, i2, ?_, ?_⟩
      · intro fc
        rw [i3 fc]
        constructor
        · rintro (hin | ⟨e', he', helig', hni', rfl⟩)
          · rw [List.mem_append] at hin
            rcases hin with h | h
            · exact Or.inl h
            · simp at h
              exact Or.inr ⟨e, List.mem_cons_self e es, helig, hnotin, h⟩
          · refine Or.inr ⟨e', List.mem_cons_of_mem _ he', helig', ?_, rfl⟩
            intro hmem
            exact hni' (List.mem_cons_of_mem _ hmem)
        · rintro (hin | ⟨e', he', helig', hni', rfl⟩)
          · exact Or.inl (List.mem_append_left _ hin)
          · rcases List.mem_cons.mp he' with rfl | he''
            · exact Or.inl (List.mem_append_right _ (by simp))
            · refine Or.inr ⟨e', he'', helig', ?_, rfl⟩
              intro hmem
              rcases List.mem_cons.mp hmem with heq | hmem'
              · have hm := List.mem_map_of_mem relPath he''
                rw [← heq] at hne
                exact hne hm
              · exact hni' hmem'
      · intro s
        rw [i4 s]
        constructor
        · rintro (hin | ⟨e', he', helig', hni', rfl⟩)
          · rcases List.mem_cons.mp hin with rfl | h
            · exact Or.inr ⟨e, List.mem_cons_self e es, helig, hnotin, rfl⟩
            · exact Or.inl h
          · refine Or.inr ⟨e', List.mem_cons_of_mem _ he', helig', ?_, rfl⟩
            intro hmem
            exact hni' (List.mem_cons_of_mem _ hmem)
        · rintro (hin | ⟨e', he', helig', hni', rfl⟩)
          · exact Or.inl (List.mem_cons_of_mem _ hin)
          · rcases List.mem_cons.mp he' with rfl | he''
            · exact Or.inl (List.mem_cons_self _ _)
            · refine Or.inr ⟨e', he'', helig', ?_, rfl⟩
              intro hmem
              rcases List.mem_cons.mp hmem with heq | hmem'
              · have hm := List.mem_map_of_mem relPath he''
                rw [← heq] at hne
                exact hne hm
              · exact hni' hmem'
    · rw [if_neg hc]
      obtain ⟨i1, i2, i3, i4⟩ := ih st hndt hA hB
      refine ⟨i1, i2, ?_, ?_⟩
      · intro fc
        rw [i3 fc]
        constructor
        · rintro (h | ⟨e', he', h2, h3, h4⟩)
          · exact Or.inl h
          · exact Or.inr ⟨e', List.mem_cons_of_mem _ he', h2, h3, h4⟩
        · rintro (h | ⟨e', he', h2, h3, h4⟩)
          · exact Or.inl h
          · rcases List.mem_cons.mp he' with rfl | he''
            · exact absurd ⟨h2, h3⟩ hc
            · exact Or.inr ⟨e', he'', h2, h3, h4⟩
      · intro s
        rw [i4 s]
        constructor
        · rintro (h | ⟨e', he', h2, h3, h4⟩)
          · exact Or.inl h
          · exact Or.inr ⟨e', List.mem_cons_of_mem _ he', h2, h3, h4⟩
        · rintro (h | ⟨e', he', h2, h3, h4⟩)
          · exact Or.inl h
          · rcases List.mem_cons.mp he' with rfl | he''
            · exact absurd ⟨h2, h3⟩ hc
            · exact Or.inr ⟨e', he'', h2, h3, h4⟩


theorem gatherPats_spec (exclude : List String) (fs : List FSEntry)
    (hfs : (fs.map relPath).Nodup) :
    ∀ (pats : List String) (st : List String × List FileContent),
      (∀ s, s ∈ st.1 ↔ s ∈ st.2.map FileContent.path) →
      (st.2.map FileContent.path).Nodup →
      (∀ s, s ∈ (pats.foldl (fun st pat =>
            (sortedGlob fs pat).foldl (gatherStep exclude) st) st).1 ↔
        s ∈ (pats.foldl (fun st pat =>
            (sortedGlob fs pat).foldl (gatherStep exclude) st) st).2.map
          FileContent.path) ∧
      ((pats.foldl (fun st pat =>
          (sortedGlob fs pat).foldl (gatherStep exclude) st) st).2.map
        FileContent.path).Nodup ∧
      (∀ fc, fc ∈ (pats.foldl (fun st pat =>
            (sortedGlob fs pat).foldl (gatherStep exclude) st) st).2 ↔
        fc ∈ st.2 ∨
          ∃ e, e ∈ fs ∧ entryEligible exclude e = true ∧
            (∃ pat, pat ∈ pats ∧ globMatches pat e = true) ∧
            relPath e ∉ st.1 ∧ fc = (⟨relPath e, e.content⟩ : FileContent)) ∧
      (∀ s, s ∈ (pats.foldl (fun st pat =>
            (sortedGlob fs pat).foldl (gatherStep exclude) st) st).1 ↔
        s ∈ st.1 ∨
          ∃ e, e ∈ fs ∧ entryEligible exclude e = true ∧
            (∃ pat, pat ∈ pats ∧ globMatches pat e = true) ∧
            relPath e ∉ st.1 ∧ s = relPath e) := by
  have hinj := List.inj_on_of_nodup_map hfs
  intro pats
  induction pats with
  | nil =>
    intro st hA hB
    refine ⟨hA, hB, ?_, ?_⟩ <;> intro x <;> simp
  | cons pat pats ih =>
    intro st hA hB
    rw [List.foldl_cons]
    obtain ⟨jA, jB, j3, j4⟩ :=
      gatherFold_spec exclude (sortedGlob fs pat) st
        (nodup_sortedGlob_map fs pat hfs) hA hB
    obtain ⟨i1, i2, i3, i4⟩ :=
      ih ((sortedGlob fs pat).foldl (gatherStep exclude) st) jA jB
    refine ⟨i1, i2, ?_, ?_⟩
    · intro fc
      rw [i3 fc]
      constructor
      · rintro (hin | ⟨e, hefs, helig, ⟨p, hp, hm⟩, hni, rfl⟩)
        · rcases (j3 fc).mp hin with h | ⟨e, hesg, helig, hni, rfl⟩
          · exact Or.inl h
          · obtain ⟨hefs, hm⟩ := (mem_sortedGlob fs pat e).mp hesg
            exact Or.inr ⟨e, hefs, helig,
              ⟨pat, List.mem_cons_self _ _, hm⟩, hni, rfl⟩
        · have hni0 : relPath e ∉ st.1 := fun h => hni ((j4 _).mpr (Or.inl h))
          exact Or.inr ⟨e, hefs, helig,
            ⟨p, List.mem_cons_of_mem _ hp, hm⟩, hni0, rfl⟩
      · rintro (hin | ⟨e, hefs, helig, ⟨p, hp, hm⟩, hni, rfl⟩)
        · exact Or.inl ((j3 fc).mpr (Or.inl hin))
        · rcases List.mem_cons.mp hp with rfl | hp'
          · exact Or.inl ((j3 _).mpr (Or.inr
              ⟨e, (mem_sortedGlob fs p e).mpr ⟨hefs, hm⟩, helig, hni, rfl⟩))
          · by_cases hmem : relPath e ∈
                ((sortedGlob fs pat).foldl (gatherStep exclude) st).1
            · rcases (j4 _).mp hmem with h | ⟨e', hesg', helig', hni', heq⟩
              · exact absurd h hni
              · obtain ⟨hefs', hm'⟩ := (mem_sortedGlob fs pat e').mp hesg'
                have he' : e' = e := hinj hefs' hefs heq.symm
                rw [he'] at hesg' helig' hni'
                exact Or.inl ((j3 _).mpr (Or.inr ⟨e, hesg', helig', hni', rfl⟩))
            · exact Or.inr ⟨e, hefs, helig, ⟨p, hp', hm⟩, hmem, rfl⟩
    · intro s
      rw [i4 s]
      constructor
      · rintro (hin | ⟨e, hefs, helig, ⟨p, hp, hm⟩, hni, rfl⟩)
        · rcases (j4 s).mp hin with h | ⟨e, hesg, helig, hni, rfl⟩
          · exact Or.inl h
          · obtain ⟨hefs, hm⟩ := (mem_sortedGlob fs pat e).mp hesg
            exact Or.inr ⟨e, hefs, helig,
              ⟨pat, List.mem_cons_self _ _, hm⟩, hni, rfl⟩
        · have hni0 : relPath e ∉ st.1 := fun h => hni ((j4 _).mpr (Or.inl h))
          exact Or.inr ⟨e, hefs, helig,
            ⟨p, List.mem_cons_of_mem _ hp, hm⟩, hni0, rfl⟩
      · rintro (hin | ⟨e, hefs, helig, ⟨p, hp, hm⟩, hni, rfl⟩)
        · exact Or.inl ((j4 s).mpr (Or.inl hin))
        · rcases List.mem_cons.mp hp with rfl | hp'
          · exact Or.inl ((j4 _).mpr (Or.inr
              ⟨e, (mem_sortedGlob fs p e).mpr ⟨hefs, hm⟩, helig, hni, rfl⟩))
          · by_cases hmem : relPath e ∈
                ((sortedGlob fs pat).foldl (gatherStep exclude) st).1
            · rcases (j4 _).mp hmem with h | ⟨e', hesg', helig', hni', heq⟩
              · exact absurd h hni
              · obtain ⟨hefs', hm'⟩ := (mem_sortedGlob fs pat e').mp hesg'
                have he' : e' = e := hinj hefs' hefs heq.symm
                rw [he'] at hesg' helig' hni'
                exact Or.inl ((j4 _).mpr (Or.inr ⟨e, hesg', helig', hni', rfl⟩))
            · exact Or.inr ⟨e, hefs, helig, ⟨p, hp', hm⟩, hmem, rfl⟩

/-- C10 (amended): over a repository listing whose entries have pairwise
distinct relative paths, `gather_files_combined` returns a list with pairwise
distinct paths containing exactly one entry per regular file that is within
the size ceiling, readable, matches some requested glob pattern, and whose
relative path contains none of the caller-supplied or baseline exclude
strings as a substring of the whole path (substring containment, not the
per-directory membership test the spec describes). -/
theorem gather_files_combined_amended
    (fs : List FSEntry) (patterns exclude_patterns : List String)
    (hnd : (fs.map relPath).Nodup) :
    (∀ fc, fc ∈ gather_files_combined fs patterns exclude_patterns ↔
      ∃ e, e ∈ fs ∧ e.isFile = true ∧ e.size ≤ MAX_FILE_SIZE ∧
        e.readable = true ∧
        (∀ ex ∈ exclude_patterns ++ defaultExcludes,
          pyInStr ex (relPath e) = false) ∧
        (∃ pat ∈ patterns, globMatches pat e = true) ∧
        fc = (⟨relPath e, e.content⟩ : FileContent)) ∧
    ((gather_files_combined fs patterns exclude_patterns).map
      FileContent.path).Nodup := by
  obtain ⟨i1, i2, i3, i4⟩ :=
    gatherPats_spec (exclude_patterns ++ defaultExcludes) fs hnd
      (pySorted pyStrLe patterns.eraseDups) ([], []) (by simp) (by simp)
  have hgf : gather_files_combined fs patterns exclude_patterns =
      ((pySorted pyStrLe patterns.eraseDups).foldl (fun st pat =>
        (sortedGlob fs pat).foldl
          (gatherStep (exclude_patterns ++ defaultExcludes)) st) ([], [])).2 :=
    rfl
  refine ⟨?_, ?_⟩
  · intro fc
    rw [hgf, i3 fc]
    constructor
    · rintro (hin | ⟨e, hefs, helig, ⟨p, hp, hm⟩, -, rfl⟩)
      · exact absurd hin (List.not_mem_nil _)
      · rw [entryEligible_iff] at helig
        obtain ⟨h1, h2, h3, h4⟩ := helig
        rw [mem_pySorted, mem_eraseDups] at hp
        exact ⟨e, hefs, h1, h2, h3, h4, ⟨p, hp, hm⟩, rfl⟩
    · rintro ⟨e, hefs, h1, h2, h3, h4, ⟨p, hp, hm⟩, rfl⟩
      refine Or.inr ⟨e, hefs, (entryEligible_iff _ e).mpr ⟨h1, h2, h3, h4⟩,
        ⟨p, ?_, hm⟩, List.not_mem_nil _, rfl⟩
      rw [mem_pySorted, mem_eraseDups]
      exact hp
  · rw [hgf]
    exact i2

/-- C10 (counterexample): the selector's exclusion test is substring matching
on the whole relative path, not the lie-in-an-excluded-directory test the
spec describes: the top-level file `rebuild.py` lies in no excluded
directory, is a regular readable file under the size ceiling and matches the
requested pattern, yet `gather_files_combined` drops it because the default
exclude string `"build"` occurs inside its file name. -/
theorem substring_exclusion_drops_rebuild_py :
    (gather_files_combined
      [(⟨["rebuild.py"], true, 10, true, "x = 1"⟩ : FSEntry)]
      ["**/*.py"] [] = [] ∧
     liesInExcludedDir ([] ++ defaultExcludes)
       (⟨["rebuild.py"], true, 10, true, "x = 1"⟩ : FSEntry) = false ∧
     FSEntry.isFile (⟨["rebuild.py"], true, 10, true, "x = 1"⟩ : FSEntry) = true ∧
     FSEntry.size (⟨["rebuild.py"], true, 10, true, "x = 1"⟩ : FSEntry) ≤
       MAX_FILE_SIZE ∧
     FSEntry.readable (⟨["rebuild.py"], true, 10, true, "x = 1"⟩ : FSEntry)
       = true ∧
     globMatches "**/*.py" (⟨["rebuild.py"], true, 10, true, "x = 1"⟩ : FSEntry)
       = true) := by decide

/-- Witness for the C10 amended theorem at the spec's scenario repository
(`src/app.py`, `vendor/lib.py`, a `node_modules` dependency-cache file, and
the `src` directory itself): the relative paths are pairwise distinct,
instantiating the theorem there yields the membership characterization, and
the selector indeed returns exactly `src/app.py`. -/
theorem gather_files_combined_amended_witness :
    (([(⟨["src"], false, 0, true, ""⟩ : FSEntry),
       (⟨["src", "app.py"], true, 10, true, "import os\n"⟩ : FSEntry),
       (⟨["vendor", "lib.py"], true, 8, true, "x\n"⟩ : FSEntry),
       (⟨["node_modules", "left-pad", "index.py"], true, 5, true, "y\n"⟩ :
         FSEntry)].map relPath).Nodup) ∧
    ((∀ fc, fc ∈ gather_files_combined [(⟨["src"], false, 0, true, ""⟩ : FSEntry),
       (⟨["src", "app.py"], true, 10, true, "import os\n"⟩ : FSEntry),
       (⟨["vendor", "lib.py"], true, 8, true, "x\n"⟩ : FSEntry),
       (⟨["node_modules", "left-pad", "index.py"], true, 5, true, "y\n"⟩ :
         FSEntry)]
        ["**/*.py"] ["vendor"] ↔
      ∃ e, e ∈ [(⟨["src"], false, 0, true, ""⟩ : FSEntry),
       (⟨["src", "app.py"], true, 10, true, "import os\n"⟩ : FSEntry),
       (⟨["vendor", "lib.py"], true, 8, true, "x\n"⟩ : FSEntry),
       (⟨["node_modules", "left-pad", "index.py"], true, 5, true, "y\n"⟩ :
         FSEntry)] ∧
        e.isFile = true ∧ e.size ≤ MAX_FILE_SIZE ∧ e.readable = true ∧
        (∀ ex ∈ ["vendor"] ++ defaultExcludes,
          pyInStr ex (relPath e) = false) ∧
        (∃ pat ∈ ["**/*.py"], globMatches pat e = true) ∧
        fc = (⟨relPath e, e.content⟩ : FileContent)) ∧
     ((gather_files_combined [(⟨["src"], false, 0, true, ""⟩ : FSEntry),
       (⟨["src", "app.py"], true, 10, true, "import os\n"⟩ : FSEntry),
       (⟨["vendor", "lib.py"], true, 8, true, "x\n"⟩ : FSEntry),
       (⟨["node_modules", "left-pad", "index.py"], true, 5, true, "y\n"⟩ :
         FSEntry)]
        ["**/*.py"] ["vendor"]).map FileContent.path).Nodup) ∧
    gather_files_combined [(⟨["src"], false, 0, true, ""⟩ : FSEntry),
       (⟨["src", "app.py"], true, 10, true, "import os\n"⟩ : FSEntry),
       (⟨["vendor", "lib.py"], true, 8, true, "x\n"⟩ : FSEntry),
       (⟨["node_modules", "left-pad", "index.py"], true, 5, true, "y\n"⟩ :
         FSEntry)]
      ["**/*.py"] ["vendor"] =
      [(⟨"src/app.py", "import os\n"⟩ : FileContent)] :=
  ⟨by decide,
   gather_files_combined_amended _ _ _ (by decide),
   by decide⟩

end Noxaudit
